import Mathlib

/-!
# SVDom: restricted document, sanitizer and shorthand expander

A shallow embedding of `src/svdom.js`.

* JavaScript strings are lists of characters (`List Char`); every delimiter the
  source inspects (`<`, `>`, `:`, `"`, space, `/`, `[a-zA-Z0-9_]`) is ASCII.
* The four regular expressions of `SVDocument.parse` are transcribed with two
  backtracking combinators (`lit`, `greedy`), written in continuation-passing
  style so that a failing continuation makes a quantifier give back characters,
  as the JavaScript matcher does.
* `String.prototype.replace` with a `/g` regex and a callback is `replaceGo`.
* The `while(nfi)` loop of `SVDocument.parse` takes fuel, one unit per pass, and
  returns `none` when it is used up; that enough fuel exists is a theorem.
* The rendering engine is outside the script. Its trees are rose trees of nodes
  with identities (`Node`, `Dom`); its HTML parser and serializer and the
  identifiers of its global environment are the fields of `Host`.
* A call returns `Except JSError α`: `.error` is a thrown value, while an
  `SVDError` given back with `return` is an ordinary value. Calls that may
  change the trees return them as well (`Outcome`, `DocOutcome`).
-/

namespace SVDom

/-! ## Regular-expression combinators -/

/-- Character class `[a-zA-Z0-9_]`. -/
def isWordChar (c : Char) : Bool :=
  (97 ≤ c.toNat && c.toNat ≤ 122) || (65 ≤ c.toNat && c.toNat ≤ 90) ||
    (48 ≤ c.toNat && c.toNat ≤ 57) || c.toNat == 95

/-- Character class `[^<>]`. -/
def notAngle (c : Char) : Bool := !(c == '<' || c == '>')

/-- Character class `[^"]`. -/
def notQuote (c : Char) : Bool := !(c == '"')

/-- The pattern character ` ` (a single space). -/
def isSpace (c : Char) : Bool := c == ' '

/-- A literal pattern character followed by the rest of the pattern `k`. -/
def lit {α : Type} (c : Char) (s : List Char) (k : List Char → Option α) : Option α :=
  match s with
  | [] => none
  | d :: ds => if d = c then k ds else none

/-- A greedy quantifier over a character class, followed by the rest of the
pattern `k`. The longest run is tried first; when `k` fails on it the run is
shortened by one character and `k` is tried again. `min` is the least number of
characters the quantifier takes (1 for `+`, 0 for `*`). `k` receives the
captured run and the input left after it. -/
def greedy {α : Type} (p : Char → Bool) :
    Nat → List Char → (List Char → List Char → Option α) → Option α
  | min, [], k => if min = 0 then k [] [] else none
  | min, c :: cs, k =>
    match (if p c then greedy p (min - 1) cs (fun pre post => k (c :: pre) post) else none) with
    | some r => some r
    | none => if min = 0 then k [] (c :: cs) else none

/-- One replacement made by `replace`: the text the regex matched, what the
callback returned for it, and whether the callback took its rewriting branch. -/
structure Rewrite where
  matched : List Char
  replacement : List Char
  rewrote : Bool
  deriving DecidableEq, Repr

/-- `String.prototype.replace(regex /g, callback)`: scan left to right; where the
regex matches at the current position, emit the callback's result and continue
after the match; elsewhere copy one character. The first argument counts the
characters of the current match still to be skipped. The Boolean is true when
some callback call took its rewriting branch. None of the regexes of this
program matches the empty string. -/
def replaceGo (m : List Char → Option Rewrite) : Nat → List Char → List Char × Bool
  | _, [] => ([], false)
  | k + 1, _ :: cs => replaceGo m k cs
  | 0, c :: cs =>
    match m (c :: cs) with
    | some r =>
      let t := replaceGo m (r.matched.length - 1) cs
      (r.replacement ++ t.1, r.rewrote || t.2)
    | none =>
      let t := replaceGo m 0 cs
      (c :: t.1, t.2)

/-- The string returned by `s.replace(regex, callback)`. -/
def replaceAll (m : List Char → Option Rewrite) (s : List Char) : List Char :=
  (replaceGo m 0 s).1

/-! ## String helpers used by the callbacks -/

/-- White space as removed by `String.prototype.trim` (WhiteSpace and
LineTerminator of ECMAScript). -/
def isJSWhiteSpace (c : Char) : Bool :=
  let n := c.toNat
  n == 0x09 || n == 0x0A || n == 0x0B || n == 0x0C || n == 0x0D || n == 0x20 ||
  n == 0xA0 || n == 0x1680 || (0x2000 ≤ n && n ≤ 0x200A) || n == 0x2028 ||
  n == 0x2029 || n == 0x202F || n == 0x205F || n == 0x3000 || n == 0xFEFF

/-- The test `x.trim().endsWith('/')`: the last character of `x` that is not
white space is a slash. -/
def trimEndsWithSlash (x : List Char) : Bool :=
  match (x.reverse.dropWhile isJSWhiteSpace) with
  | [] => false
  | c :: _ => c == '/'

/-- Number of occurrences of a character. -/
def countChar (c : Char) (s : List Char) : Nat := s.count c

/-! ## `SVDocument.parse`: the four rewrite rules -/

/-- Rule a, `/<([a-zA-Z0-9_]+):( *)([^<>]+)>/g` with its callback (lines 559-564). -/
def matchSelfClosing (s : List Char) : Option Rewrite :=
  lit '<' s fun s1 =>
  greedy isWordChar 1 s1 fun tag s2 =>
  lit ':' s2 fun s3 =>
  greedy isSpace 0 s3 fun spaces s4 =>
  greedy notAngle 1 s4 fun attributes s5 =>
  lit '>' s5 fun _ =>
    let whole := '<' :: tag ++ ':' :: spaces ++ attributes ++ ['>']
    if trimEndsWithSlash attributes || (spaces.length == 0 && attributes.length != 0) then
      some ⟨whole, whole, false⟩
    else
      some ⟨whole, '<' :: tag ++ ' ' :: attributes ++ "></".toList ++ tag ++ ['>'], true⟩

/-- Rule b, `/<([a-zA-Z0-9_]+)( +):([a-zA-Z0-9_]+)( *)([^<>]*)>/g` with its
callback (lines 566-571). -/
def matchIdShorthand (s : List Char) : Option Rewrite :=
  lit '<' s fun s1 =>
  greedy isWordChar 1 s1 fun tag s2 =>
  greedy isSpace 1 s2 fun spaces1 s3 =>
  lit ':' s3 fun s4 =>
  greedy isWordChar 1 s4 fun id s5 =>
  greedy isSpace 0 s5 fun spaces2 s6 =>
  greedy notAngle 0 s6 fun rest s7 =>
  lit '>' s7 fun _ =>
    let whole := '<' :: tag ++ spaces1 ++ ':' :: id ++ spaces2 ++ rest ++ ['>']
    if spaces2.length == 0 && rest.length != 0 then
      some ⟨whole, whole, false⟩
    else
      some ⟨whole, '<' :: tag ++ " id=\"".toList ++ id ++ "\" ".toList ++ rest ++ ['>'], true⟩

/-- Rule c, `/<([a-zA-Z0-9_]+):"([^"]+)"( *)([^<>]*)>/g` with its callback
(lines 573-578). -/
def matchTextShorthand (s : List Char) : Option Rewrite :=
  lit '<' s fun s1 =>
  greedy isWordChar 1 s1 fun tag s2 =>
  lit ':' s2 fun s3 =>
  lit '"' s3 fun s4 =>
  greedy notQuote 1 s4 fun content s5 =>
  lit '"' s5 fun s6 =>
  greedy isSpace 0 s6 fun spaces s7 =>
  greedy notAngle 0 s7 fun rest s8 =>
  lit '>' s8 fun _ =>
    let whole := '<' :: tag ++ ':' :: '"' :: content ++ '"' :: spaces ++ rest ++ ['>']
    if trimEndsWithSlash rest then
      some ⟨whole, whole, false⟩
    else
      some ⟨whole, '<' :: tag ++ (if rest.length != 0 then ' ' :: rest else []) ++ '>' :: content
        ++ "</".toList ++ tag ++ ['>'], true⟩

/-- Rule d, `/<([^<>]+):([^<>]+)>/g` with its callback (lines 584-590). The
guard `((before.split('"').length - 1) / 2) % 1` is truthy exactly when
`before` holds an odd number of `"`; the rewriting branch sets `nfi`. -/
def matchColonAttr (s : List Char) : Option Rewrite :=
  lit '<' s fun s1 =>
  greedy notAngle 1 s1 fun before s2 =>
  lit ':' s2 fun s3 =>
  greedy notAngle 1 s3 fun after s4 =>
  lit '>' s4 fun _ =>
    let whole := '<' :: before ++ ':' :: after ++ ['>']
    if countChar '"' before % 2 = 1 then
      some ⟨whole, whole, false⟩
    else
      some ⟨whole, '<' :: before ++ '=' :: after ++ ['>'], true⟩

/-- The `while(nfi)` loop (lines 580-591). Each pass applies rule d to the whole
string; the loop stops after the first pass in which no callback rewrote.
Returns the final string and the number of passes made, or `none` when the
fuel is used up before the loop stops. -/
def colonLoop : Nat → List Char → Option (List Char × Nat)
  | 0, _ => none
  | fuel + 1, content =>
    let r := replaceGo matchColonAttr 0 content
    if r.2 then
      match colonLoop fuel r.1 with
      | some (out, n) => some (out, n + 1)
      | none => none
    else some (r.1, 1)

/-- The three single-pass rewrites of `SVDocument.parse` (lines 557-578), in
source order. -/
def firstRewrites (content : List Char) : List Char :=
  replaceAll matchTextShorthand (replaceAll matchIdShorthand (replaceAll matchSelfClosing content))

/-! ## Host environment

The rendering engine is an external collaborator. Its HTML parser and
serializer, and the identifiers bound in the global environment besides the
three this script declares, are parameters of the model. -/

/-- What a node is. `ownRealm` is true for an element created by the document
the script runs in, so that `node instanceof Element` holds; the elements an
inline frame creates for its own content document have it false. -/
inductive Kind where
  | element (tag : String) (attrs : List (String × String)) (ownRealm : Bool)
  | text (data : String)
  | comment (data : String)
  | document
  deriving DecidableEq, Repr

/-- A node of a tree of the rendering engine: its identity, what it is, and its
children in order. Nodes of a parsed fragment carry identity 0 until they are
placed in a live tree. -/
inductive Node where
  | mk (id : Nat) (kind : Kind) (children : List Node)
  deriving Repr

/-- Values thrown by the script or by the engine. -/
inductive JSError where
  | referenceError (name : String)
  | typeError (what : String)
  | error (message : String)
  | domException (name : String)
  deriving DecidableEq, Repr

deriving instance DecidableEq for Except

/-- The class `SVDError` (lines 23-48): an error object with a name and a
message, used as a returned value. -/
structure SVDError where
  message : String
  deriving DecidableEq, Repr

/-- The engine-side parameters. -/
structure Host where
  /-- Parser run by `node.innerHTML = markup`. -/
  parseFragment : List Char → List Node
  /-- Serializer run by reading `node.innerHTML`. -/
  serialize : List Node → List Char
  /-- Text of the `style` attribute after `element.style[prop] = value`, from
  its text before (if any), the property and the value. -/
  styleText : Option String → String → String → String
  /-- Whether the engine accepts a string as the name of an element in
  `document.createElement`. -/
  validName : String → Bool
  /-- Identifiers bound in the global environment by the engine or by other
  scripts of the page. -/
  globals : List String

/-- Identifiers declared at the top level of `svdom.js`. -/
def scriptGlobals : List String := ["SVDError", "VElement", "SVDocument"]

/-- Whether an identifier reference resolves inside a function whose parameters
and local declarations are `locals`. The script is in strict mode (line 10), so
evaluating or assigning an identifier that does not resolve throws a
`ReferenceError`. -/
def resolves (h : Host) (locals : List String) (name : String) : Bool :=
  locals.contains name || scriptGlobals.contains name || h.globals.contains name

/-- `SVDocument.DOMEvents` (line 598). -/
def DOMEvents : List String :=
  ["click", "contextmenu", "dblclick", "mousedown", "mouseenter", "mouseleave", "mousemove",
   "mouseover", "mouseout", "mouseup", "keydown", "keypress", "keyup", "abort", "beforeunload",
   "error", "hashchange", "load", "pageshow", "pagehide", "resize", "scroll", "unload", "blur",
   "change", "focus", "focusin", "focusout", "input", "invalid", "reset", "search", "select",
   "submit", "drag", "dragend", "dragenter", "dragleave", "dragover", "dragstart", "drop", "copy",
   "cut", "paste", "afterprint", "beforeprint", "abort", "canplay", "canplaythrough",
   "durationchange", "ended", "error", "loadeddata", "loadedmetadata", "loadstart", "pause",
   "play", "playing", "progress", "ratechange", "seeked", "seeking", "stalled", "suspend",
   "timeupdate", "volumechange", "waiting", "error", "message", "open", "online", "offline",
   "show", "toggle", "wheel"]

/-- `SVDocument.UnsafeTags` (line 599). -/
def UnsafeTags : List String :=
  ["frame", "iframe", "webkit", "script", "style", "meta", "link", "webview", "object"]

/-- The attribute names `'on' + event` for the events of `DOMEvents`. -/
def eventAttrs : List String := DOMEvents.map fun e => "on" ++ e

/-- Whether an attribute list holds an attribute selected by
`'[on' + DOMEvents.join('],[on') + ']'`. -/
def hasEventAttr (attrs : List (String × String)) : Bool :=
  attrs.any fun a => eventAttrs.contains a.1

/-- Whether a node is an element matched by the selector
`UnsafeTags.join(',')`. -/
def isUnsafeElement : Node → Bool
  | .mk _ (.element tag _ _) _ => UnsafeTags.contains tag
  | _ => false

/-- Whether a node is an element matched by the event-attribute selector. -/
def isEventElement : Node → Bool
  | .mk _ (.element _ attrs _) _ => hasEventAttr attrs
  | _ => false

mutual
/-- The descendants-or-self of a node that satisfy `p`, in document order:
`querySelectorAll` for a selector that tests one element at a time. -/
def selectNode (p : Node → Bool) : Node → List Node
  | .mk id kind children =>
    (if p (.mk id kind children) then [.mk id kind children] else []) ++ selectNodes p children
/-- `selectNode` over a list of siblings. -/
def selectNodes (p : Node → Bool) : List Node → List Node
  | [] => []
  | n :: ns => selectNode p n ++ selectNodes p ns
end

mutual
/-- The tree left once `remove()` has been called on every descendant-or-self
that satisfies `p` (lines 532-534); `none` when the node itself goes. -/
def pruneNode (p : Node → Bool) : Node → Option Node
  | .mk id kind children =>
    if p (.mk id kind children) then none else some (.mk id kind (pruneNodes p children))
/-- `pruneNode` over a list of siblings. -/
def pruneNodes (p : Node → Bool) : List Node → List Node
  | [] => []
  | n :: ns =>
    match pruneNode p n with
    | some m => m :: pruneNodes p ns
    | none => pruneNodes p ns
end

/-- The attributes left by `removeAttribute('on' + event)` for every event. -/
def dropEventAttrs (attrs : List (String × String)) : List (String × String) :=
  attrs.filter fun a => !eventAttrs.contains a.1

mutual
/-- The tree left once every event attribute of every element is removed
(lines 539-541). -/
def cleanNode : Node → Node
  | .mk id (.element tag attrs r) children =>
    .mk id (.element tag (dropEventAttrs attrs) r) (cleanNodes children)
  | .mk id kind children => .mk id kind (cleanNodes children)
/-- `cleanNode` over a list of siblings. -/
def cleanNodes : List Node → List Node
  | [] => []
  | n :: ns => cleanNode n :: cleanNodes ns
end

/-- `SVDocument.safe` (lines 525-544). The loop variables `element` and `event`
are not declared by the function (its declarations are `content`, `tmp`, `i`,
`j`, `collection`), so the first iteration of each `for ... of` assigns to an
identifier that has to resolve in the global environment. -/
def SVDocument.safe (h : Host) (content : List Char) : Except JSError (List Char) :=
  let locals := ["content", "tmp", "i", "j", "collection"]
  -- tmp.innerHTML = content
  let tmp := h.parseFragment content
  -- collection = tmp.querySelectorAll(UnsafeTags.join(',')); collection[i].remove()
  let tmp := pruneNodes isUnsafeElement tmp
  -- collection = tmp.querySelectorAll('[on' + DOMEvents.join('],[on') + ']')
  let collection := selectNodes isEventElement tmp
  match collection with
  | [] => .ok (h.serialize tmp)
  | _ :: _ =>
    if !resolves h locals "element" then .error (.referenceError "element")
    else if !resolves h locals "event" then .error (.referenceError "event")
    else .ok (h.serialize (cleanNodes tmp))

/-- The rewriting part of `SVDocument.parse` (lines 557-591): the final string
and the number of passes of the `while(nfi)` loop, or `none` when the loop does
not stop within `fuel` passes. -/
def expand (fuel : Nat) (content : List Char) : Option (List Char × Nat) :=
  colonLoop fuel (firstRewrites content)

/-- `SVDocument.parse` (lines 552-594). `none` when the loop does not stop
within `fuel` passes. -/
def SVDocument.parse (h : Host) (fuel : Nat) (content : List Char) (safe : Bool) :
    Option (Except JSError (List Char)) :=
  if content.isEmpty then some (.ok [])
  else
    match expand fuel content with
    | none => none
    | some (out, _) => some (if safe then SVDocument.safe h out else .ok out)

/-! ## The live trees of the rendering engine -/

/-- Identity of a node. -/
def Node.id : Node → Nat
  | .mk i _ _ => i

/-- What a node is. -/
def Node.kind : Node → Kind
  | .mk _ k _ => k

/-- Children of a node, in order. -/
def Node.children : Node → List Node
  | .mk _ _ cs => cs

/-- Whether the node is an element, of any realm. -/
def Kind.isElement : Kind → Bool
  | .element _ _ _ => true
  | _ => false

/-- Whether the node is a document. -/
def Kind.isDocument : Kind → Bool
  | .document => true
  | _ => false

mutual
/-- The node with the given identity inside a tree, if any. -/
def findNode (id : Nat) : Node → Option Node
  | .mk i k cs => if i = id then some (.mk i k cs) else findNodes id cs
/-- `findNode` over a list of trees. -/
def findNodes (id : Nat) : List Node → Option Node
  | [] => none
  | n :: ns =>
    match findNode id n with
    | some m => some m
    | none => findNodes id ns
end

mutual
/-- The node of a tree one of whose children has the given identity. -/
def parentInNode (id : Nat) : Node → Option Node
  | .mk i k cs =>
    if cs.any (fun c => c.id == id) then some (.mk i k cs) else parentInNodes id cs
/-- `parentInNode` over a list of trees. -/
def parentInNodes (id : Nat) : List Node → Option Node
  | [] => none
  | n :: ns =>
    match parentInNode id n with
    | some m => some m
    | none => parentInNodes id ns
end

mutual
/-- Apply `f` to the node with the given identity. -/
def modifyNode (id : Nat) (f : Node → Node) : Node → Node
  | .mk i k cs => if i = id then f (.mk i k cs) else .mk i k (modifyNodes id f cs)
/-- `modifyNode` over a list of trees. -/
def modifyNodes (id : Nat) (f : Node → Node) : List Node → List Node
  | [] => []
  | n :: ns => modifyNode id f n :: modifyNodes id f ns
end

/-- The state of the rendering engine: its trees (each document and each
detached tree is a root), the content document of each inline frame that has
one, the `offsetParent` the layout gives each element, and the next unused
identity. -/
structure Dom where
  roots : List Node
  frames : List (Nat × Nat)
  offsetParents : List (Nat × Nat)
  nextId : Nat

/-- The node with the given identity. -/
def Dom.node (d : Dom) (id : Nat) : Option Node := findNodes id d.roots

/-- The parent node of a node. -/
def Dom.parentNode (d : Dom) (id : Nat) : Option Node := parentInNodes id d.roots

/-- The test `x instanceof Element` made by the script: `x` is an element created
in the script's own realm. -/
def Dom.instanceOfElement (d : Dom) (id : Nat) : Bool :=
  match d.node id with
  | some (.mk _ (.element _ _ own) _) => own
  | _ => false

/-- Whether `x` is `b` or a descendant of `b`. -/
def Dom.contains (d : Dom) (b x : Nat) : Bool :=
  match d.node b with
  | some n => (findNode x n).isSome
  | none => false

/-- Child nodes of a node. -/
def Dom.childNodes (d : Dom) (id : Nat) : List Node :=
  match d.node id with
  | some n => n.children
  | none => []

/-- The nodes that share the parent of a node, itself included, in order. -/
def Dom.siblings (d : Dom) (id : Nat) : List Node :=
  match d.parentNode id with
  | some p => p.children
  | none => []

/-- The nodes that follow the given one in a list of siblings. -/
def nodesAfter (id : Nat) : List Node → List Node
  | [] => []
  | n :: ns => if n.id = id then ns else nodesAfter id ns

/-- The nodes that precede the given one in a list of siblings, nearest first. -/
def nodesBefore (id : Nat) : List Node → List Node → List Node
  | _, [] => []
  | acc, n :: ns => if n.id = id then acc else nodesBefore id (n :: acc) ns

/-- Identity of the first node of a list. -/
def firstId (ns : List Node) : Option Nat :=
  match ns with
  | [] => none
  | n :: _ => some n.id

/-- The elements of a list of nodes. -/
def elementsOf (ns : List Node) : List Node := ns.filter fun n => n.kind.isElement

/-- The engine's `node.parentElement`. -/
def Dom.parentElement (d : Dom) (id : Nat) : Option Nat :=
  match d.parentNode id with
  | some p => if p.kind.isElement then some p.id else none
  | none => none

/-- The engine's `node.firstChild`. -/
def Dom.firstChild (d : Dom) (id : Nat) : Option Nat := firstId (d.childNodes id)

/-- The engine's `node.firstElementChild`. -/
def Dom.firstElementChild (d : Dom) (id : Nat) : Option Nat :=
  firstId (elementsOf (d.childNodes id))

/-- The engine's `node.lastElementChild`. -/
def Dom.lastElementChild (d : Dom) (id : Nat) : Option Nat :=
  firstId (elementsOf (d.childNodes id)).reverse

/-- The engine's `node.nextSibling`. -/
def Dom.nextSibling (d : Dom) (id : Nat) : Option Nat :=
  firstId (nodesAfter id (d.siblings id))

/-- The engine's `node.nextElementSibling`. -/
def Dom.nextElementSibling (d : Dom) (id : Nat) : Option Nat :=
  firstId (elementsOf (nodesAfter id (d.siblings id)))

/-- The engine's `node.previousSibling`. -/
def Dom.previousSibling (d : Dom) (id : Nat) : Option Nat :=
  firstId (nodesBefore id [] (d.siblings id))

/-- The engine's `node.previousElementSibling`. -/
def Dom.previousElementSibling (d : Dom) (id : Nat) : Option Nat :=
  firstId (elementsOf (nodesBefore id [] (d.siblings id)))

/-- The engine's `element.offsetParent`, decided by the layout. -/
def Dom.offsetParent (d : Dom) (id : Nat) : Option Nat := d.offsetParents.lookup id

/-- The engine's `element.children`. -/
def Dom.children (d : Dom) (id : Nat) : List Nat := (elementsOf (d.childNodes id)).map Node.id

/-! ## `VElement`: construction and navigation -/

/-- A proxy: the closure variables `element` and `main` of a `VElement`. -/
structure VElement where
  element : Nat
  main : Nat
  deriving DecidableEq, Repr

/-- The constructor's argument check (lines 73-74). -/
def VElement.new (d : Dom) (element main : Nat) : Except JSError VElement :=
  if !d.instanceOfElement element || !d.instanceOfElement main then
    .error (.error "Illegal arguments for VElement : Requires two DOM elements")
  else .ok ⟨element, main⟩

/-- The pattern `x ? new VElement(x, main) : x` of the navigation getters. -/
def VElement.wrap (d : Dom) (main : Nat) : Option Nat → Except JSError (Option VElement)
  | none => .ok none
  | some x =>
    match VElement.new d x main with
    | .ok v => .ok (some v)
    | .error e => .error e

/-- `makeCollection` (lines 63-70). -/
def makeCollection (d : Dom) (main : Nat) : List Nat → Except JSError (List VElement)
  | [] => .ok []
  | item :: rest =>
    match VElement.new d item main with
    | .error e => .error e
    | .ok v =>
      match makeCollection d main rest with
      | .error e => .error e
      | .ok vs => .ok (v :: vs)

/-- Getter `firstChild` (lines 116, 118). -/
def VElement.firstChild (d : Dom) (v : VElement) : Except JSError (Option VElement) :=
  VElement.wrap d v.main (d.firstChild v.element)

/-- Getter `firstElementChild` (line 117). -/
def VElement.firstElementChild (d : Dom) (v : VElement) : Except JSError (Option VElement) :=
  VElement.wrap d v.main (d.firstElementChild v.element)

/-- Getter `lastElementChild` (line 119). -/
def VElement.lastElementChild (d : Dom) (v : VElement) : Except JSError (Option VElement) :=
  VElement.wrap d v.main (d.lastElementChild v.element)

/-- Getter `nextSibling` (line 120). -/
def VElement.nextSibling (d : Dom) (v : VElement) : Except JSError (Option VElement) :=
  VElement.wrap d v.main (d.nextSibling v.element)

/-- Getter `nextElementSibling` (line 121). -/
def VElement.nextElementSibling (d : Dom) (v : VElement) : Except JSError (Option VElement) :=
  VElement.wrap d v.main (d.nextElementSibling v.element)

/-- Getter `offsetParent` (line 122). -/
def VElement.offsetParent (d : Dom) (v : VElement) : Except JSError (Option VElement) :=
  VElement.wrap d v.main (d.offsetParent v.element)

/-- Getter `parentElement` (line 123). -/
def VElement.parentElement (d : Dom) (v : VElement) : Except JSError (Option VElement) :=
  if v.element = v.main then .ok none else VElement.wrap d v.main (d.parentElement v.element)

/-- Getter `previousSibling` (line 124). -/
def VElement.previousSibling (d : Dom) (v : VElement) : Except JSError (Option VElement) :=
  VElement.wrap d v.main (d.previousSibling v.element)

/-- Getter `previousElementSibling` (line 125). -/
def VElement.previousElementSibling (d : Dom) (v : VElement) :
    Except JSError (Option VElement) :=
  VElement.wrap d v.main (d.previousElementSibling v.element)

/-- Getter `children` (line 452). -/
def VElement.children (d : Dom) (v : VElement) : Except JSError (List VElement) :=
  makeCollection d v.main (d.children v.element)

/-- A navigation operation of a proxy; `children i` reads the collection and
takes its item `i`. -/
inductive Nav where
  | firstChild
  | firstElementChild
  | lastElementChild
  | nextSibling
  | nextElementSibling
  | previousSibling
  | previousElementSibling
  | offsetParent
  | parentElement
  | children (i : Nat)
  deriving DecidableEq, Repr

/-- One navigation operation applied to a proxy. -/
def VElement.step (d : Dom) (v : VElement) : Nav → Except JSError (Option VElement)
  | .firstChild => v.firstChild d
  | .firstElementChild => v.firstElementChild d
  | .lastElementChild => v.lastElementChild d
  | .nextSibling => v.nextSibling d
  | .nextElementSibling => v.nextElementSibling d
  | .previousSibling => v.previousSibling d
  | .previousElementSibling => v.previousElementSibling d
  | .offsetParent => v.offsetParent d
  | .parentElement => v.parentElement d
  | .children i =>
    match v.children d with
    | .ok vs => .ok vs[i]?
    | .error e => .error e

/-- A sequence of navigation operations applied from a proxy; it stops with the
empty value as soon as an operation returns it. -/
def VElement.navigate (d : Dom) (v : VElement) : List Nav → Except JSError (Option VElement)
  | [] => .ok (some v)
  | op :: ops =>
    match v.step d op with
    | .ok (some w) => w.navigate d ops
    | .ok none => .ok none
    | .error e => .error e

/-! ## Engine primitives that change the trees -/

/-- The root of the tree a node is in. -/
def Dom.rootOf (d : Dom) (id : Nat) : Option Node :=
  d.roots.find? fun r => (findNode id r).isSome

/-- Whether a node is in the tree of a document. -/
def Dom.isConnected (d : Dom) (id : Nat) : Bool :=
  match d.rootOf id with
  | some r => r.kind.isDocument
  | none => false

/-- Insert `n` before the sibling `ref`, or last when `ref` is absent. -/
def insertInto (n : Node) (ref : Option Nat) : List Node → List Node
  | [] => [n]
  | c :: cs => if ref = some c.id then n :: c :: cs else c :: insertInto n ref cs

/-- Whether a node is an `iframe` element. -/
def isFrameElement : Node → Bool
  | .mk _ (.element tag _ _) _ => tag == "iframe"
  | _ => false

/-- The document an inline frame creates for its content once it is in a
document: `html` holding `head` and `body`, elements of the frame's own realm. -/
def blankDocument (next : Nat) : Node :=
  .mk next .document
    [.mk (next + 1) (.element "html" [] false)
      [.mk (next + 2) (.element "head" [] false) [],
       .mk (next + 3) (.element "body" [] false) []]]

/-- Give each listed inline frame a fresh content document. -/
def Dom.loadFrames (d : Dom) : List Nat → Dom
  | [] => d
  | f :: fs =>
    Dom.loadFrames
      { d with roots := d.roots ++ [blankDocument d.nextId],
               frames := (f, d.nextId) :: d.frames,
               nextId := d.nextId + 4 } fs

/-- Take the tree of `n` out of wherever it is and put it under `parent`, before
`ref`. Inline frames of the moved tree lose their content document, and get a
fresh one when the tree is now in a document. -/
def Dom.place (d : Dom) (parent : Nat) (n : Node) (ref : Option Nat) : Dom :=
  let moved := (selectNode isFrameElement n).map Node.id
  let roots1 := pruneNodes (fun x => x.id == n.id) d.roots
  let roots2 := modifyNodes parent
    (fun p => .mk p.id p.kind (insertInto n ref p.children)) roots1
  let d2 : Dom :=
    { d with roots := roots2, frames := d.frames.filter fun f => !moved.contains f.1 }
  if d2.isConnected parent then d2.loadFrames moved else d2

/-- Take the tree of `n` out of wherever it is; it becomes a detached root. -/
def Dom.detach (d : Dom) (n : Node) : Dom :=
  let moved := (selectNode isFrameElement n).map Node.id
  { d with roots := pruneNodes (fun x => x.id == n.id) d.roots ++ [n],
           frames := d.frames.filter fun f => !moved.contains f.1 }

/-- The checks the engine makes before inserting `node` under `parent` before
`ref`; on success, the two nodes. -/
def Dom.ensurePreInsert (d : Dom) (parent node : Nat) (ref : Option Nat) :
    Except JSError (Node × Node) :=
  match d.node parent, d.node node with
  | some p, some n =>
    if !(p.kind.isElement || p.kind.isDocument) then
      .error (.domException "HierarchyRequestError")
    else if (findNode parent n).isSome then .error (.domException "HierarchyRequestError")
    else if (match ref with
        | some r => !p.children.any (fun c => c.id == r)
        | none => false) then .error (.domException "NotFoundError")
    else if n.kind.isDocument then .error (.domException "HierarchyRequestError")
    else if p.kind.isDocument && (!n.kind.isElement || p.children.any fun c => c.kind.isElement)
      then .error (.domException "HierarchyRequestError")
    else .ok (p, n)
  | _, _ => .error (.typeError "argument is not a Node")

/-- The engine's `parent.insertBefore(node, ref)`. -/
def Dom.insertBefore (d : Dom) (parent node : Nat) (ref : Option Nat) : Except JSError Dom :=
  match d.ensurePreInsert parent node ref with
  | .error e => .error e
  | .ok (_, n) =>
    let ref2 := if ref = some node then d.nextSibling node else ref
    .ok (d.place parent n ref2)

/-- The engine's `parent.appendChild(node)`. -/
def Dom.appendChild (d : Dom) (parent node : Nat) : Except JSError Dom :=
  d.insertBefore parent node none

/-- The engine's `parent.replaceChild(node, child)`. -/
def Dom.replaceChild (d : Dom) (parent node child : Nat) : Except JSError Dom :=
  match d.node parent, d.node node, d.node child with
  | some p, some n, some c =>
    if !(p.kind.isElement || p.kind.isDocument) then
      .error (.domException "HierarchyRequestError")
    else if (findNode parent n).isSome then .error (.domException "HierarchyRequestError")
    else if !p.children.any (fun x => x.id == child) then .error (.domException "NotFoundError")
    else if n.kind.isDocument then .error (.domException "HierarchyRequestError")
    else if p.kind.isDocument &&
        (!n.kind.isElement || p.children.any fun x => x.kind.isElement && x.id != child)
      then .error (.domException "HierarchyRequestError")
    else
      let ref := if d.nextSibling child = some node then d.nextSibling node
        else d.nextSibling child
      .ok ((d.detach c).place parent n ref)
  | _, _, _ => .error (.typeError "argument is not a Node")

/-- ASCII lower case of a character. -/
def asciiLower (c : Char) : Char :=
  if 65 ≤ c.toNat && c.toNat ≤ 90 then Char.ofNat (c.toNat + 32) else c

/-- ASCII lower case of a string. -/
def lowerName (s : String) : String := String.mk (s.toList.map asciiLower)

/-- Whether a string is accepted as an attribute name: not empty, and free of
white space, NUL, `/`, `=` and `>`. -/
def validAttrName (s : String) : Bool :=
  !s.toList.isEmpty && s.toList.all fun c =>
    !(isJSWhiteSpace c || c.toNat == 0 || c == '/' || c == '=' || c == '>')

/-- Set or replace an attribute in an attribute list. -/
def setAttr (name value : String) : List (String × String) → List (String × String)
  | [] => [(name, value)]
  | a :: as => if a.1 = name then (name, value) :: as else a :: setAttr name value as

/-- Set or replace an attribute of a node when it is an element. -/
def setAttrNode (name value : String) : Node → Node
  | .mk i (.element tag attrs own) cs => .mk i (.element tag (setAttr name value attrs) own) cs
  | other => other

/-- The engine's `element.setAttribute(name, value)` on an element of an HTML
document: the name is lower-cased. -/
def Dom.setAttribute (d : Dom) (id : Nat) (name value : String) : Except JSError Dom :=
  if !validAttrName name then .error (.domException "InvalidCharacterError")
  else .ok { d with roots := modifyNodes id (setAttrNode (lowerName name) value) d.roots }

/-- The engine's `element.hasAttribute(name)`. -/
def Dom.hasAttribute (d : Dom) (id : Nat) (name : String) : Bool :=
  match d.node id with
  | some (.mk _ (.element _ attrs _) _) => attrs.any fun a => a.1 == lowerName name
  | _ => false

/-- The engine's `document.createElement(name)` in an HTML document: a detached
element of the script's realm, its name lower-cased; a name the engine does not
accept makes it throw. -/
def Dom.createElement (h : Host) (d : Dom) (name : String) : Except JSError (Dom × Nat) :=
  if !h.validName name then .error (.domException "InvalidCharacterError")
  else
    let n : Node := .mk d.nextId (.element (lowerName name) [] true) []
    .ok ({ d with roots := d.roots ++ [n], nextId := d.nextId + 1 }, d.nextId)

mutual
/-- Give the nodes of a parsed tree fresh identities, from `next` on. -/
def relabelNode (next : Nat) : Node → Node × Nat
  | .mk _ k cs =>
    let r := relabelNodes (next + 1) cs
    (.mk next k r.1, r.2)
/-- `relabelNode` over a list of trees. -/
def relabelNodes (next : Nat) : List Node → List Node × Nat
  | [] => ([], next)
  | n :: ns =>
    let a := relabelNode next n
    let b := relabelNodes a.2 ns
    (a.1 :: b.1, b.2)
end

/-- The engine's `element.innerHTML = markup`: the children of the element are
replaced by the parsed markup; the former children live on as detached trees. -/
def Dom.setInnerHTML (h : Host) (d : Dom) (id : Nat) (markup : List Char) : Dom :=
  let fresh := relabelNodes d.nextId (h.parseFragment markup)
  { d with roots := modifyNodes id (fun n => .mk n.id n.kind fresh.1) d.roots ++ d.childNodes id,
           nextId := fresh.2 }

/-- The engine's `element.outerHTML`. -/
def Dom.outerHTML (h : Host) (d : Dom) (id : Nat) : List Char :=
  match d.node id with
  | some n => h.serialize [n]
  | none => []

/-- The engine's `element.style[prop] = value`, seen through the `style`
attribute. -/
def styleNode (h : Host) (prop value : String) : Node → Node
  | .mk i (.element tag attrs own) cs =>
    .mk i (.element tag (setAttr "style" (h.styleText (attrs.lookup "style") prop value) attrs)
      own) cs
  | other => other

/-- The engine's `element.style[prop] = value`. -/
def Dom.setStyle (h : Host) (d : Dom) (id : Nat) (prop value : String) : Dom :=
  { d with roots := modifyNodes id (styleNode h prop value) d.roots }

/-- The first element with the given tag among the descendants of a node: the
engine's `node.querySelector(tag)`. -/
def Dom.queryTag (d : Dom) (id : Nat) (tag : String) : Option Nat :=
  firstId (selectNodes
    (fun n =>
      match n.kind with
      | .element t _ _ => t == tag
      | _ => false) (d.childNodes id))

/-- Whether the tree under a node holds no element of `UnsafeTags` and no
attribute `'on' + event`. -/
def Dom.subtreeClean (d : Dom) (id : Nat) : Bool :=
  match d.node id with
  | some n => (selectNode isUnsafeElement n).isEmpty && (selectNode isEventElement n).isEmpty
  | none => true

/-! ## `VElement`: operations that change the tree -/

/-- An argument given by a caller: a node of the engine, a proxy, or a value
that is neither. -/
inductive JSArg where
  | raw (id : Nat)
  | proxy (v : VElement)
  | other
  deriving DecidableEq, Repr

/-- What a call leaves behind: the trees after it, and the value it returned or
the value it threw. -/
structure Outcome (α : Type) where
  dom : Dom
  result : Except JSError α

/-- Forget the value a call returned (a call statement whose value is not used). -/
def Outcome.discard {α : Type} (o : Outcome α) : Outcome (Option SVDError) :=
  match o.result with
  | .ok _ => ⟨o.dom, .ok none⟩
  | .error e => ⟨o.dom, .error e⟩

/-- `appendChild` given a node of the engine (lines 155-159 and 162-163). -/
def VElement.appendRaw (h : Host) (d : Dom) (self : VElement) (child : Nat) :
    Outcome (Option SVDError) :=
  if d.instanceOfElement child then
    match SVDocument.safe h (d.outerHTML h child) with
    | .error e => ⟨d, .error e⟩
    | .ok clean =>
      if d.outerHTML h child ≠ clean then
        ⟨d, .ok (some
          ⟨"Element safety mismatch : Can't append an unsafe element to a safe element"⟩)⟩
      else
        match d.appendChild self.element child with
        | .error e => ⟨d, .error e⟩
        | .ok d2 => ⟨d2, .ok none⟩
  else ⟨d, .ok (some ⟨"Unknown element type, can't append it"⟩)⟩

/-- `appendTo` (lines 171-179). -/
def VElement.appendTo (h : Host) (d : Dom) (self : VElement) (parent : JSArg) :
    Outcome (Option SVDError) :=
  match parent with
  | .raw p =>
    if d.instanceOfElement p then
      match VElement.new d p self.main with
      | .error e => ⟨d, .error e⟩
      | .ok v => (v.appendRaw h d self.element).discard
    else ⟨d, .ok (some ⟨"Unknown element type, can't append this element to it"⟩)⟩
  | .proxy v => (v.appendRaw h d self.element).discard
  | .other => ⟨d, .ok (some ⟨"Unknown element type, can't append this element to it"⟩)⟩

/-- `appendChild` (lines 154-164). -/
def VElement.appendChild (h : Host) (d : Dom) (self : VElement) (child : JSArg) :
    Outcome (Option SVDError) :=
  match child with
  | .raw c => self.appendRaw h d c
  | .proxy v => (v.appendTo h d (.proxy self)).discard
  | .other => ⟨d, .ok (some ⟨"Unknown element type, can't append it"⟩)⟩

/-- `__insertBefore` (lines 311-313). -/
def VElement.__insertBefore (d : Dom) (self : VElement) (parent before : Nat) : Outcome Unit :=
  match d.insertBefore parent before (some self.element) with
  | .error e => ⟨d, .error e⟩
  | .ok d2 => ⟨d2, .ok ()⟩

/-- `__insertBeforeS` (lines 301-303). -/
def VElement.__insertBeforeS (d : Dom) (self : VElement) (parent : Nat) (after : JSArg) :
    Outcome Unit :=
  match after with
  | .proxy a => a.__insertBefore d parent self.element
  | _ => ⟨d, .error (.typeError "after.__insertBefore is not a function")⟩

/-- `insertBefore` (lines 291-293). -/
def VElement.insertBefore (d : Dom) (self : VElement) (el1 el2 : JSArg) : Outcome Unit :=
  match el1 with
  | .proxy e1 => e1.__insertBeforeS d self.element el2
  | _ => ⟨d, .error (.typeError "el1.__insertBeforeS is not a function")⟩

/-- `setAttribute` (lines 428-436); `attr.substr(2)` drops the first two
characters. -/
def VElement.setAttribute (d : Dom) (self : VElement) (attr value : String) :
    Outcome (Option SVDError) :=
  if DOMEvents.contains (String.mk (attr.toList.drop 2)) then
    ⟨d, .ok (some ⟨"Can't set attribute \"$\x7battr\x7d\" because document is in safe mode"⟩)⟩
  else
    match d.setAttribute self.element attr value with
    | .error e => ⟨d, .error e⟩
    | .ok d2 => ⟨d2, .ok none⟩

/-- Setter `innerHTML` (line 79). -/
def VElement.setInnerHTML (h : Host) (d : Dom) (self : VElement) (content : List Char) :
    Outcome Unit :=
  match SVDocument.safe h content with
  | .error e => ⟨d, .error e⟩
  | .ok clean => ⟨d.setInnerHTML h self.element clean, .ok ()⟩

/-- Setter `innerNTML` (line 80); `none` when the expander's loop does not stop
within `fuel` passes. -/
def VElement.setInnerNTML (h : Host) (fuel : Nat) (d : Dom) (self : VElement)
    (content : List Char) : Option (Outcome Unit) :=
  match SVDocument.parse h fuel content true with
  | none => none
  | some (.error e) => some ⟨d, .error e⟩
  | some (.ok html) => some ⟨d.setInnerHTML h self.element html, .ok ()⟩

/-! ## `VElement`: comparisons and event listeners -/

mutual
/-- `contains` (line 223): `el.isContained(element)`. Each call of a method of a
proxy takes one unit of fuel; `none` when the fuel is used up. A node of the
engine has no method `isContained`. -/
def VElement.contains : Nat → Dom → VElement → JSArg → Option (Except JSError (Option Bool))
  | 0, _, _, _ => none
  | fuel + 1, d, self, el =>
    match el with
    | .proxy q => VElement.isContained fuel d q (.raw self.element)
    | _ => some (.error (.typeError "el.isContained is not a function"))
/-- `isContained` (lines 230-235); the empty value stands for `undefined`, which
the function returns when `el` is neither an `Element` nor a `VElement`. -/
def VElement.isContained : Nat → Dom → VElement → JSArg → Option (Except JSError (Option Bool))
  | 0, _, _, _ => none
  | fuel + 1, d, self, el =>
    match el with
    | .raw n =>
      if d.instanceOfElement n then some (.ok (some (d.contains n self.element)))
      else some (.ok none)
    | .proxy v => VElement.contains fuel d v (.proxy self)
    | .other => some (.ok none)
end

/-- A value given by a caller where the script or the engine looks at its type:
a string, a function (with its identity), a Boolean, or `undefined`. -/
inductive JSVal where
  | str (s : String)
  | fn (f : Nat)
  | bool (b : Bool)
  | undefined
  deriving DecidableEq, Repr

/-- The callback of a listener held by the engine: a function of a caller, or
the arrow function that a call of `addEventListener` of a proxy created (lines
139-143), which calls the caller's function `calls`. Two arrow functions
created by two calls are two objects, told apart by `serial`. -/
inductive Callback where
  | user (f : Nat)
  | wrapper (serial : Nat) (calls : Nat)
  deriving DecidableEq, Repr

/-- An event listener of the engine: the node it is on, the event type, the
callback and the capture flag. -/
structure Listener where
  target : Nat
  type : String
  callback : Callback
  capture : Bool
  deriving DecidableEq, Repr

/-- The event listeners the engine holds, in order of registration, and the
serial of the next arrow function. -/
structure Events where
  listeners : List Listener
  nextSerial : Nat

/-- The engine's `target.addEventListener(type, callback)`: the listener is
appended unless one with the same type, callback and capture flag is there. -/
def Events.add (ev : Events) (l : Listener) : Events :=
  if ev.listeners.contains l then ev else { ev with listeners := ev.listeners ++ [l] }

/-- The engine's `target.removeEventListener(type, callback, capture)`: the
listener with that type, callback and capture flag is removed, if there is one. -/
def Events.remove (ev : Events) (l : Listener) : Events :=
  { ev with listeners := ev.listeners.erase l }

/-- The caller's function that a callback runs. -/
def Callback.runs : Callback → Nat
  | .user f => f
  | .wrapper _ f => f

/-- The caller's functions run, in order, by the listeners registered on a node
when an event of the given type occurs on it. -/
def Events.invoked (ev : Events) (target : Nat) (type : String) : List Nat :=
  (ev.listeners.filter fun l => l.target == target && l.type == type).map fun l =>
    l.callback.runs

/-- The capture flag the engine reads from the third argument of
`removeEventListener`. -/
def captureFlag : JSVal → Bool
  | .bool b => b
  | .str s => !s.toList.isEmpty
  | _ => false

/-- `addEventListener` (lines 133-147): the listeners after the call and the
Boolean returned. -/
def VElement.addEventListener (ev : Events) (self : VElement) (name callback : JSVal) :
    Events × Bool :=
  match name, callback with
  | .str n, .fn f =>
    ({ ev with nextSerial := ev.nextSerial + 1 }.add
      ⟨self.element, n, .wrapper ev.nextSerial f, false⟩, true)
  | _, _ => (ev, false)

/-- `removeEventListener` (line 418): the arguments are handed to the engine as
they are. The engine takes a function or `undefined` as callback and throws a
`TypeError` on a string or a Boolean. -/
def VElement.removeEventListener (ev : Events) (self : VElement) (eventName : String)
    (callback useCapture : JSVal) : Except JSError Events :=
  match callback with
  | .fn f => .ok (ev.remove ⟨self.element, eventName, .user f, captureFlag useCapture⟩)
  | .undefined => .ok ev
  | _ => .error (.typeError "parameter 2 is not of type 'Object'")

/-! ## `SVDocument` -/

/-- The closure variables of an `SVDocument`: the inline frame `top`, the body
`dom`, and the flag `isContained`. -/
structure SVDocument where
  top : Nat
  dom : Nat
  isContained : Bool
  deriving DecidableEq, Repr

/-- A value returned by `SVDocument.appendTo`. -/
inductive JSValue where
  | undefined
  | hostObject (madeBy : String)
  deriving DecidableEq, Repr

/-- What a call on a document leaves behind. -/
structure DocOutcome where
  dom : Dom
  doc : SVDocument
  result : Except JSError JSValue

/-- The constructor `SVDocument` (lines 468-518); `this.tree` is the proxy of
`dom` bound to `dom`. -/
def SVDocument.new (h : Host) (d : Dom) (dontMark : Bool) : Except JSError (Dom × SVDocument) :=
  match d.createElement h "iframe" with
  | .error e => .error e
  | .ok c1 =>
    match (c1.1.setStyle h c1.2 "border" "none").createElement h "body" with
    | .error e => .error e
    | .ok c3 =>
      match (if !dontMark then c3.1.setAttribute c1.2 "svdom-role" "document"
          else .ok c3.1) with
      | .error e => .error e
      | .ok d4 =>
        match VElement.new d4 c3.2 c3.2 with
        | .error e => .error e
        | .ok _ => .ok (d4, ⟨c1.2, c3.2, false⟩)

/-- The proxy `doc.tree`. -/
def SVDocument.tree (doc : SVDocument) : VElement := ⟨doc.dom, doc.dom⟩

/-- The statement `element.appendChild(top)` of line 496. -/
def callAppendChild (h : Host) (d : Dom) (element : JSArg) (top : Nat) : Outcome Unit :=
  match element with
  | .raw e =>
    match d.appendChild e top with
    | .error e => ⟨d, .error e⟩
    | .ok d2 => ⟨d2, .ok ()⟩
  | .proxy v =>
    let o := v.appendChild h d (.raw top)
    match o.result with
    | .ok _ => ⟨o.dom, .ok ()⟩
    | .error e => ⟨o.dom, .error e⟩
  | .other => ⟨d, .error (.typeError "element.appendChild is not a function")⟩

/-- `SVDocument.appendTo` (lines 492-501). The identifier `VError` of line 494
is declared nowhere in the script. -/
def SVDocument.appendTo (h : Host) (d : Dom) (doc : SVDocument) (element : JSArg) :
    DocOutcome :=
  let locals := ["element", "content", "dontMark", "top", "dom", "isContained"]
  if doc.isContained then
    if resolves h locals "VError" then ⟨d, doc, .ok (.hostObject "VError")⟩
    else ⟨d, doc, .error (.referenceError "VError")⟩
  else
    let o := callAppendChild h d element doc.top
    match o.result with
    | .error e => ⟨o.dom, doc, .error e⟩
    | .ok _ =>
      match o.dom.frames.lookup doc.top with
      | none => ⟨o.dom, doc, .error (.typeError "top.contentDocument is null")⟩
      | some content =>
        match o.dom.queryTag content "html" with
        | none => ⟨o.dom, doc, .error (.typeError "querySelector('html') is null")⟩
        | some html =>
          match o.dom.queryTag content "body" with
          | none => ⟨o.dom, doc, .error (.typeError "argument is not a Node")⟩
          | some body =>
            match o.dom.replaceChild html doc.dom body with
            | .error e => ⟨o.dom, doc, .error e⟩
            | .ok d2 =>
              ⟨d2.setStyle h doc.dom "margin" "0px", { doc with isContained := true },
                .ok .undefined⟩

/-- `createElement` of a document (lines 508-510): `none` stands for `false`. -/
def SVDocument.createElement (h : Host) (d : Dom) (doc : SVDocument) (tagName : String) :
    Except JSError (Dom × Option VElement) :=
  if !UnsafeTags.contains tagName then
    match d.createElement h tagName with
    | .error e => .error e
    | .ok c =>
      match VElement.new c.1 c.2 doc.dom with
      | .error e => .error e
      | .ok v => .ok (c.1, some v)
  else .ok (d, none)

/-! ## A host for plain markup

A concrete engine, used to run the model on examples. Its serializer follows
the HTML fragment serialization; its parser reads well-nested markup made of
tags with quoted or unquoted attributes, text and raw-text elements, with no
character references, comments, implied tags or `template` contents. -/

/-- Elements that have no end tag. -/
def voidTags : List String :=
  ["area", "base", "br", "col", "embed", "hr", "img", "input", "link", "meta", "source",
   "track", "wbr"]

/-- Elements whose text is written out as it is. -/
def rawTextTags : List String :=
  ["style", "script", "xmp", "iframe", "noembed", "noframes", "plaintext", "noscript"]

/-- Escaping of text by the serializer. -/
def escapeText : List Char → List Char
  | [] => []
  | c :: cs =>
    (if c = '&' then "&amp;".toList
     else if c = '<' then "&lt;".toList
     else if c = '>' then "&gt;".toList
     else if c.toNat = 0xA0 then "&nbsp;".toList
     else [c]) ++ escapeText cs

/-- Escaping of an attribute value by the serializer. -/
def escapeAttr : List Char → List Char
  | [] => []
  | c :: cs =>
    (if c = '&' then "&amp;".toList
     else if c = '"' then "&quot;".toList
     else if c.toNat = 0xA0 then "&nbsp;".toList
     else [c]) ++ escapeAttr cs

/-- The serialized attributes of an element. -/
def serializeAttrs : List (String × String) → List Char
  | [] => []
  | a :: as => ' ' :: a.1.toList ++ '=' :: '"' :: escapeAttr a.2.toList ++ '"' :: serializeAttrs as

mutual
/-- The markup of a node; `raw` tells whether its parent is a raw-text element. -/
def serializeNode (raw : Bool) : Node → List Char
  | .mk _ (.element tag attrs _) cs =>
    '<' :: tag.toList ++ serializeAttrs attrs ++ '>' ::
      (if voidTags.contains tag then []
       else serializeNodes (rawTextTags.contains tag) cs ++ '<' :: '/' :: tag.toList ++ ['>'])
  | .mk _ (.text data) _ => if raw then data.toList else escapeText data.toList
  | .mk _ (.comment data) _ => '<' :: '!' :: '-' :: '-' :: data.toList ++ ['-', '-', '>']
  | .mk _ .document cs => serializeNodes false cs
/-- The markup of a list of siblings. -/
def serializeNodes (raw : Bool) : List Node → List Char
  | [] => []
  | n :: ns => serializeNode raw n ++ serializeNodes raw ns
end

/-- White space between attributes. -/
def isHtmlSpace (c : Char) : Bool :=
  c.toNat == 0x20 || c.toNat == 0x09 || c.toNat == 0x0A || c.toNat == 0x0C || c.toNat == 0x0D

/-- Whether a string starts with another. -/
def startsWith : List Char → List Char → Bool
  | _, [] => true
  | [], _ :: _ => false
  | c :: cs, p :: ps => c == p && startsWith cs ps

/-- Split a string at the first occurrence of `stop`, which is dropped with
everything up to the next `>`. -/
def splitAtClose (stop : List Char) : List Char → List Char × List Char
  | [] => ([], [])
  | c :: cs =>
    if startsWith (c :: cs) stop then ([], ((c :: cs).dropWhile fun x => x != '>').drop 1)
    else
      let r := splitAtClose stop cs
      (c :: r.1, r.2)

/-- Read the attributes of a start tag, up to and including its `>`. -/
def parseAttrs : Nat → List Char → List (String × String) × List Char
  | 0, s => ([], s)
  | fuel + 1, s =>
    match s.dropWhile isHtmlSpace with
    | [] => ([], [])
    | c :: cs =>
      if c = '>' then ([], cs)
      else if c = '/' then parseAttrs fuel cs
      else
        let nm := (c :: cs).span fun x => !(isHtmlSpace x || x == '=' || x == '>' || x == '/')
        match nm.2 with
        | '=' :: '"' :: v =>
          let val := v.span fun x => x != '"'
          let r := parseAttrs fuel (val.2.drop 1)
          ((lowerName (String.mk nm.1), String.mk val.1) :: r.1, r.2)
        | '=' :: '\'' :: v =>
          let val := v.span fun x => x != '\''
          let r := parseAttrs fuel (val.2.drop 1)
          ((lowerName (String.mk nm.1), String.mk val.1) :: r.1, r.2)
        | '=' :: v =>
          let val := v.span fun x => !(isHtmlSpace x || x == '>')
          let r := parseAttrs fuel val.2
          ((lowerName (String.mk nm.1), String.mk val.1) :: r.1, r.2)
        | rest =>
          let r := parseAttrs fuel rest
          ((lowerName (String.mk nm.1), "") :: r.1, r.2)

/-- Read sibling nodes up to the end tag that closes their parent, or to the
end of the input. -/
def parseNodes : Nat → List Char → List Node × List Char
  | 0, s => ([], s)
  | _ + 1, [] => ([], [])
  | fuel + 1, c :: cs =>
    if c = '<' then
      match cs with
      | '/' :: rest => ([], (rest.dropWhile fun x => x != '>').drop 1)
      | _ =>
        let nm := cs.span fun x => isWordChar x || x == '-'
        let tag := lowerName (String.mk nm.1)
        let a := parseAttrs fuel nm.2
        if voidTags.contains tag then
          let sibs := parseNodes fuel a.2
          (.mk 0 (.element tag a.1 true) [] :: sibs.1, sibs.2)
        else if rawTextTags.contains tag then
          let body := splitAtClose ('<' :: '/' :: tag.toList) a.2
          let sibs := parseNodes fuel body.2
          (.mk 0 (.element tag a.1 true)
            (if body.1.isEmpty then [] else [.mk 0 (.text (String.mk body.1)) []]) :: sibs.1,
            sibs.2)
        else
          let kids := parseNodes fuel a.2
          let sibs := parseNodes fuel kids.2
          (.mk 0 (.element tag a.1 true) kids.1 :: sibs.1, sibs.2)
    else
      let t := (c :: cs).span fun x => x != '<'
      let sibs := parseNodes fuel t.2
      (.mk 0 (.text (String.mk t.1)) [] :: sibs.1, sibs.2)

/-- The host for plain markup. Its global environment binds the names the
script reads from the engine, and `event` (the engine's `window.event`). -/
def plainHost : Host where
  parseFragment := fun s => (parseNodes (s.length + 1) s).1
  serialize := serializeNodes false
  styleText := fun old prop value =>
    match old with
    | some t => t ++ " " ++ prop ++ ": " ++ value ++ ";"
    | none => prop ++ ": " ++ value ++ ";"
  validName := fun name =>
    match name.toList with
    | [] => false
    | c :: cs =>
      (isWordChar c && !(48 ≤ c.toNat && c.toNat ≤ 57) || c == ':' || 128 ≤ c.toNat) &&
        cs.all fun x => isWordChar x || x == '-' || x == '.' || x == ':' || 128 ≤ x.toNat
  globals := ["document", "Element", "Error", "Object", "event"]

/-! ## Example states -/

/-- A host page: a document whose `body` (3) holds a `div` (4) with a child
`p` (5), followed by a second `div` (6); and a detached `script` element (7)
holding text. All elements are of the script's realm. -/
def pageDom : Dom where
  roots :=
    [.mk 0 .document
      [.mk 1 (.element "html" [] true)
        [.mk 2 (.element "head" [] true) [],
         .mk 3 (.element "body" [] true)
           [.mk 4 (.element "div" [] true) [.mk 5 (.element "p" [] true) []],
            .mk 6 (.element "div" [] true) []]]],
     .mk 7 (.element "script" [] true) [.mk 8 (.text "evil()") []]]
  frames := []
  offsetParents := []
  nextId := 9

/-- A host page whose `body` (3) holds a `div` (4), and a detached `div` (5) that
carries the attribute `onclick="bad()"`. All elements are of the script's
realm. -/
def eventDom : Dom where
  roots :=
    [.mk 0 .document
      [.mk 1 (.element "html" [] true)
        [.mk 2 (.element "head" [] true) [],
         .mk 3 (.element "body" [] true) [.mk 4 (.element "div" [] true) []]]],
     .mk 5 (.element "div" [("onclick", "bad()")] true) []]
  frames := []
  offsetParents := []
  nextId := 6

/-- A document, a `div` created by it and appended to its tree, and the proxy
its `createElement` returns for the name `SCRIPT`. -/
structure Scene where
  dom : Dom
  doc : SVDocument
  child : VElement
  script : VElement

/-- The state after `doc = new SVDocument()`, `c = doc.createElement('div')`,
`doc.tree.appendChild(c)` and `s = doc.createElement('SCRIPT')` on `pageDom`
with `plainHost`. -/
def scriptScene : Option Scene :=
  match SVDocument.new plainHost pageDom false with
  | .ok (d1, doc) =>
    match doc.createElement plainHost d1 "div" with
    | .ok (d2, some c) =>
      match doc.createElement plainHost (doc.tree.appendChild plainHost d2 (.proxy c)).dom
          "SCRIPT" with
      | .ok (d4, some s) => some ⟨d4, doc, c, s⟩
      | _ => none
    | _ => none
  | .error _ => none

/-- The state after `doc = new SVDocument()` and `doc.appendTo(host)` on
`pageDom` with `plainHost`, `host` being the second `div` (6) of the page. -/
def attachedPage : DocOutcome :=
  match SVDocument.new plainHost pageDom false with
  | .ok (d, doc) => SVDocument.appendTo plainHost d doc (.raw 6)
  | .error e => ⟨pageDom, ⟨0, 0, false⟩, .error e⟩

/-! ## Markup on which the expander has nothing to rewrite -/

/-- One step of a left-to-right scan that tracks whether the position is inside
a `<...` opened by the nearest `<` with no `>` since (`some odd`, where `odd`
tells whether an odd number of `"` was seen since that `<`) or not (`none`).
The step fails on a colon met inside a `<...` at an even number of `"`. -/
def scanChar (st : Option Bool) (c : Char) : Option (Option Bool) :=
  if c = '<' then some (some false)
  else if c = '>' then some none
  else
    match st with
    | none => some none
    | some odd =>
      if c = '"' then some (some (!odd))
      else if c = ':' then (if odd then some (some odd) else none)
      else some (some odd)

/-- The scan of a whole string from a given state: the final state, or `none`
when some colon fails the test of `scanChar`. -/
def scan : Option Bool → List Char → Option (Option Bool)
  | st, [] => some st
  | st, c :: cs =>
    match scanChar st c with
    | none => none
    | some st2 => scan st2 cs

/-- Every colon that follows a `<` with no `<` or `>` in between has an odd
number of `"` between that `<` and itself. -/
def ColonsGuarded (s : List Char) : Prop := (scan none s).isSome = true

/-- How an attribute value is written. -/
inductive Quoting where
  | double
  | single
  | bare
  deriving DecidableEq, Repr

/-- An attribute `name=value` of a tag in canonical form. -/
structure Attribute where
  name : List Char
  value : List Char
  quoting : Quoting
  deriving DecidableEq, Repr

/-- A piece of markup in canonical open/close/attribute form: a run of text, an
opening tag `<name attr=value ...>`, or a closing tag `</name>`. -/
inductive Piece where
  | text (t : List Char)
  | openTag (name : List Char) (attrs : List Attribute)
  | closeTag (name : List Char)
  deriving DecidableEq, Repr

/-- The text of an attribute, with the space that precedes it. -/
def renderAttr (a : Attribute) : List Char :=
  ' ' :: a.name ++ '=' ::
    (match a.quoting with
     | .double => '"' :: a.value ++ ['"']
     | .single => '\'' :: a.value ++ ['\'']
     | .bare => a.value)

/-- The text of the attributes of a tag. -/
def renderAttrs : List Attribute → List Char
  | [] => []
  | a :: as => renderAttr a ++ renderAttrs as

/-- The text of a piece. -/
def renderPiece : Piece → List Char
  | .text t => t
  | .openTag name attrs => '<' :: name ++ renderAttrs attrs ++ ['>']
  | .closeTag name => '<' :: '/' :: name ++ ['>']

/-- The text of a sequence of pieces. -/
def render : List Piece → List Char
  | [] => []
  | p :: ps => renderPiece p ++ render ps

/-- A tag or attribute name: not empty, made of `[a-zA-Z0-9_]` and `-`. -/
def nameOk (n : List Char) : Bool :=
  !n.isEmpty && n.all fun c => isWordChar c || c == '-'

/-- A well-formed attribute value for its quoting: a double-quoted value holds no
`"`, a single-quoted one no `'`, and an unquoted one is not empty and holds no
white space, quote, `<`, `>`, `=` or backquote. -/
def valueOk (a : Attribute) : Bool :=
  match a.quoting with
  | .double => a.value.all fun c => c != '"'
  | .single => a.value.all fun c => c != '\''
  | .bare =>
    !a.value.isEmpty && a.value.all fun c =>
      !(isJSWhiteSpace c || c == '"' || c == '\'' || c == '<' || c == '>' || c == '=' ||
        c.toNat == 96)

/-- A well-formed piece: text holds no `<` (it is written as an entity there),
names and attribute values are well formed. No piece uses a shorthand
construct, since a name holds no colon. -/
def pieceOk : Piece → Bool
  | .text t => t.all fun c => c != '<'
  | .openTag name attrs => nameOk name && attrs.all fun a => nameOk a.name && valueOk a
  | .closeTag name => nameOk name

/-- Markup in canonical open/close/attribute form, attribute values quoted or
not, colons allowed in them. -/
def Canonical (ps : List Piece) : Bool := ps.all pieceOk

/-- An attribute whose colons the quote-count guard protects: the value is
double-quoted and holds no `<`, or it is single-quoted or unquoted and holds no
`:`, `"` or `<`. -/
def attrGuarded (a : Attribute) : Bool :=
  match a.quoting with
  | .double => a.value.all fun c => c != '<'
  | _ => a.value.all fun c => !(c == ':' || c == '"' || c == '<')

/-- A piece all of whose attributes are `attrGuarded`. -/
def pieceGuarded : Piece → Bool
  | .openTag _ attrs => attrs.all attrGuarded
  | _ => true

/-- Canonical markup in which every attribute value that holds a colon is
double-quoted, and no attribute value holds a `<`. -/
def CanonicalGuarded (ps : List Piece) : Bool := ps.all fun p => pieceOk p && pieceGuarded p


/-- A matcher whose every hit consumes a non-empty front part of the input and
whose callback never returns more colons than it was given, one fewer when it
rewrote. -/
def ColonSafe (m : List Char → Option Rewrite) : Prop :=
  ∀ s w, m s = some w →
    (∃ rest, s = w.matched ++ rest) ∧ w.matched ≠ [] ∧
      countChar ':' w.replacement + (if w.rewrote then 1 else 0) ≤ countChar ':' w.matched

/-- A string that passes the scan from some state. -/
def Guarded (s : List Char) : Prop := ∃ st, (scan st s).isSome = true

/-- A matcher whose callback leaves every match found in a `Guarded` string as
it is. -/
def QuietOn (m : List Char → Option Rewrite) : Prop :=
  ∀ s w, Guarded s → m s = some w →
    (∃ rest, s = w.matched ++ rest) ∧ w.matched ≠ [] ∧ w.replacement = w.matched ∧
      w.rewrote = false

/-! ## Facts about the combinators -/

theorem lit_sound {α : Type} (c : Char) (s : List Char) (k : List Char → Option α) (r : α)
    (h : lit c s k = some r) : ∃ ds, s = c :: ds ∧ k ds = some r := by
  cases s with
  | nil => simp [lit] at h
  | cons d ds =>
    simp only [lit] at h
    split at h
    · rename_i hd
      exact ⟨ds, by rw [hd], h⟩
    · simp at h

theorem greedy_sound {α : Type} (p : Char → Bool) :
    ∀ (s : List Char) (min : Nat) (k : List Char → List Char → Option α) (r : α),
      greedy p min s k = some r →
      ∃ pre post, s = pre ++ post ∧ (∀ c ∈ pre, p c = true) ∧ min ≤ pre.length ∧
        k pre post = some r := by
  intro s
  induction s with
  | nil =>
    intro min k r h
    simp only [greedy] at h
    split at h
    · rename_i h0
      exact ⟨[], [], rfl, by simp, by simp [h0], h⟩
    · simp at h
  | cons c cs ih =>
    intro min k r h
    simp only [greedy] at h
    split at h
    · rename_i r1 hr1
      split at hr1
      · rename_i hp
        obtain ⟨pre, post, hs, hall, hlen, hk⟩ := ih _ _ _ hr1
        simp only [Option.some.injEq] at h
        subst h
        refine ⟨c :: pre, post, by simp [hs], ?_, by simp; omega, hk⟩
        intro x hx
        rcases List.mem_cons.mp hx with rfl | hx
        · exact hp
        · exact hall x hx
      · simp at hr1
    · split at h
      · rename_i h0
        exact ⟨[], c :: cs, rfl, by simp, by simp [h0], h⟩
      · simp at h

/-- A run of characters that are none of `c` holds no `c`. -/
theorem countChar_eq_zero (c : Char) (s : List Char) (h : ∀ x ∈ s, x ≠ c) :
    countChar c s = 0 := by
  unfold countChar
  rw [List.count_eq_zero]
  intro hc
  exact h c hc rfl

theorem isWordChar_ne (c d : Char) (hd : isWordChar d = false) (hc : isWordChar c = true) :
    c ≠ d := by
  intro h
  rw [h, hd] at hc
  exact Bool.noConfusion hc

theorem isSpace_eq (c : Char) (hc : isSpace c = true) : c = ' ' := by
  simpa [isSpace] using hc

theorem countChar_word (d : Char) (hd : isWordChar d = false) (s : List Char)
    (h : ∀ x ∈ s, isWordChar x = true) : countChar d s = 0 :=
  countChar_eq_zero d s fun x hx => isWordChar_ne x d hd (h x hx)

theorem countChar_spaces (d : Char) (hd : d ≠ ' ') (s : List Char)
    (h : ∀ x ∈ s, isSpace x = true) : countChar d s = 0 :=
  countChar_eq_zero d s fun x hx => by
    rw [isSpace_eq x (h x hx)]
    exact fun e => hd e.symm

theorem countChar_append (c : Char) (s t : List Char) :
    countChar c (s ++ t) = countChar c s + countChar c t := by
  simp [countChar]

theorem countChar_cons (c d : Char) (s : List Char) :
    countChar c (d :: s) = countChar c s + (if d = c then 1 else 0) := by
  simp [countChar, List.count_cons]

/-! ## Facts about `replace` -/

theorem replaceGo_skip (m : List Char → Option Rewrite) :
    ∀ (s : List Char) (k : Nat), replaceGo m k s = replaceGo m 0 (s.drop k) := by
  intro s
  induction s with
  | nil => intro k; cases k <;> simp [replaceGo]
  | cons c cs ih =>
    intro k
    cases k with
    | zero => simp
    | succ k => simp only [replaceGo, List.drop_succ_cons]; exact ih k

/-- Unfolding `replace` at a position where the regex matches. -/
theorem replaceGo_hit (m : List Char → Option Rewrite) (s rest : List Char) (w : Rewrite)
    (hm : m s = some w) (hs : s = w.matched ++ rest) (hne : w.matched ≠ []) :
    replaceGo m 0 s =
      (w.replacement ++ (replaceGo m 0 rest).1, w.rewrote || (replaceGo m 0 rest).2) := by
  cases hw : w.matched with
  | nil => exact absurd hw hne
  | cons c cs =>
    rw [hw] at hs
    subst hs
    have hm2 : m (c :: (cs ++ rest)) = some w := hm
    show replaceGo m 0 (c :: (cs ++ rest)) = _
    simp only [replaceGo, hm2]
    simp only [hw, List.length_cons, Nat.add_sub_cancel]
    rw [replaceGo_skip m (cs ++ rest) cs.length]
    simp

/-- Unfolding `replace` at a position where the regex does not match. -/
theorem replaceGo_miss (m : List Char → Option Rewrite) (c : Char) (cs : List Char)
    (hm : m (c :: cs) = none) :
    replaceGo m 0 (c :: cs) = (c :: (replaceGo m 0 cs).1, (replaceGo m 0 cs).2) := by
  simp [replaceGo, hm]

theorem replaceGo_colons (m : List Char → Option Rewrite) (hm : ColonSafe m) :
    ∀ (n : Nat) (s : List Char), s.length ≤ n →
      countChar ':' (replaceGo m 0 s).1 + (if (replaceGo m 0 s).2 then 1 else 0)
        ≤ countChar ':' s := by
  intro n
  induction n with
  | zero =>
    intro s hs
    have : s = [] := List.length_eq_zero.mp (Nat.le_zero.mp hs)
    subst this
    simp [replaceGo]
  | succ n ih =>
    intro s hs
    cases s with
    | nil => simp [replaceGo]
    | cons c cs =>
      cases hw : m (c :: cs) with
      | none =>
        rw [replaceGo_miss m c cs hw]
        have := ih cs (by simpa using hs)
        simp only [countChar_cons]
        omega
      | some w =>
        obtain ⟨⟨rest, hrest⟩, hne, hcol⟩ := hm _ _ hw
        rw [replaceGo_hit m _ rest w hw hrest hne]
        have hlen : rest.length ≤ n := by
          have h1 : (c :: cs).length = w.matched.length + rest.length := by
            rw [hrest, List.length_append]
          have h2 : 0 < w.matched.length := List.length_pos.mpr hne
          simp only [List.length_cons] at h1 hs
          omega
        have := ih rest hlen
        rw [hrest]
        simp only [countChar_append]
        cases hr : w.rewrote <;> cases ht : (replaceGo m 0 rest).2 <;>
          simp [hr, ht] at this hcol ⊢ <;> omega

/-! ## Shape of the four matches -/

theorem matchSelfClosing_sound (s : List Char) (w : Rewrite) (h : matchSelfClosing s = some w) :
    ∃ tag spaces attributes rest,
      s = ('<' :: tag ++ ':' :: spaces ++ attributes ++ ['>']) ++ rest ∧
      (∀ c ∈ tag, isWordChar c = true) ∧ (∀ c ∈ spaces, isSpace c = true) ∧
      (∀ c ∈ attributes, notAngle c = true) ∧
      w.matched = '<' :: tag ++ ':' :: spaces ++ attributes ++ ['>'] ∧
      ((w.replacement = w.matched ∧ w.rewrote = false) ∨
        (w.replacement = '<' :: tag ++ ' ' :: attributes ++ "></".toList ++ tag ++ ['>'] ∧
          w.rewrote = true)) := by
  unfold matchSelfClosing at h
  obtain ⟨s1, rfl, h1⟩ := lit_sound _ _ _ _ h
  obtain ⟨tag, s2, rfl, htag, -, h2⟩ := greedy_sound _ _ _ _ _ h1
  obtain ⟨s3, rfl, h3⟩ := lit_sound _ _ _ _ h2
  obtain ⟨spaces, s4, rfl, hsp, -, h4⟩ := greedy_sound _ _ _ _ _ h3
  obtain ⟨attributes, s5, rfl, hat, -, h5⟩ := greedy_sound _ _ _ _ _ h4
  obtain ⟨rest, rfl, h6⟩ := lit_sound _ _ _ _ h5
  refine ⟨tag, spaces, attributes, rest, by simp, htag, hsp, hat, ?_⟩
  dsimp only at h6
  split at h6 <;> (simp only [Option.some.injEq] at h6; subst h6; simp)

theorem matchIdShorthand_sound (s : List Char) (w : Rewrite) (h : matchIdShorthand s = some w) :
    ∃ tag spaces1 id spaces2 tail rest,
      s = ('<' :: tag ++ spaces1 ++ ':' :: id ++ spaces2 ++ tail ++ ['>']) ++ rest ∧
      (∀ c ∈ tag, isWordChar c = true) ∧ (∀ c ∈ spaces1, isSpace c = true) ∧
      (∀ c ∈ id, isWordChar c = true) ∧ (∀ c ∈ spaces2, isSpace c = true) ∧
      (∀ c ∈ tail, notAngle c = true) ∧
      w.matched = '<' :: tag ++ spaces1 ++ ':' :: id ++ spaces2 ++ tail ++ ['>'] ∧
      ((w.replacement = w.matched ∧ w.rewrote = false) ∨
        (w.replacement = '<' :: tag ++ " id=\"".toList ++ id ++ "\" ".toList ++ tail ++ ['>'] ∧
          w.rewrote = true)) := by
  unfold matchIdShorthand at h
  obtain ⟨s1, rfl, h1⟩ := lit_sound _ _ _ _ h
  obtain ⟨tag, s2, rfl, htag, -, h2⟩ := greedy_sound _ _ _ _ _ h1
  obtain ⟨spaces1, s3, rfl, hsp1, -, h3⟩ := greedy_sound _ _ _ _ _ h2
  obtain ⟨s4, rfl, h4⟩ := lit_sound _ _ _ _ h3
  obtain ⟨id, s5, rfl, hid, -, h5⟩ := greedy_sound _ _ _ _ _ h4
  obtain ⟨spaces2, s6, rfl, hsp2, -, h6⟩ := greedy_sound _ _ _ _ _ h5
  obtain ⟨tail, s7, rfl, htl, -, h7⟩ := greedy_sound _ _ _ _ _ h6
  obtain ⟨rest, rfl, h8⟩ := lit_sound _ _ _ _ h7
  refine ⟨tag, spaces1, id, spaces2, tail, rest, by simp, htag, hsp1, hid, hsp2, htl, ?_⟩
  dsimp only at h8
  split at h8 <;> (simp only [Option.some.injEq] at h8; subst h8; simp)

theorem matchTextShorthand_sound (s : List Char) (w : Rewrite)
    (h : matchTextShorthand s = some w) :
    ∃ tag content spaces tail rest,
      s = ('<' :: tag ++ ':' :: '"' :: content ++ '"' :: spaces ++ tail ++ ['>']) ++ rest ∧
      (∀ c ∈ tag, isWordChar c = true) ∧ (∀ c ∈ spaces, isSpace c = true) ∧
      w.matched = '<' :: tag ++ ':' :: '"' :: content ++ '"' :: spaces ++ tail ++ ['>'] ∧
      ((w.replacement = w.matched ∧ w.rewrote = false) ∨
        (w.replacement = '<' :: tag ++ (if tail.length != 0 then ' ' :: tail else []) ++
            '>' :: content ++ "</".toList ++ tag ++ ['>'] ∧
          w.rewrote = true)) := by
  unfold matchTextShorthand at h
  obtain ⟨s1, rfl, h1⟩ := lit_sound _ _ _ _ h
  obtain ⟨tag, s2, rfl, htag, -, h2⟩ := greedy_sound _ _ _ _ _ h1
  obtain ⟨s3, rfl, h3⟩ := lit_sound _ _ _ _ h2
  obtain ⟨s4, rfl, h4⟩ := lit_sound _ _ _ _ h3
  obtain ⟨content, s5, rfl, -, -, h5⟩ := greedy_sound _ _ _ _ _ h4
  obtain ⟨s6, rfl, h6⟩ := lit_sound _ _ _ _ h5
  obtain ⟨spaces, s7, rfl, hsp, -, h7⟩ := greedy_sound _ _ _ _ _ h6
  obtain ⟨tail, s8, rfl, -, -, h8⟩ := greedy_sound _ _ _ _ _ h7
  obtain ⟨rest, rfl, h9⟩ := lit_sound _ _ _ _ h8
  refine ⟨tag, content, spaces, tail, rest, by simp, htag, hsp, ?_⟩
  dsimp only at h9
  split at h9 <;> (simp only [Option.some.injEq] at h9; subst h9; simp)

theorem matchColonAttr_sound (s : List Char) (w : Rewrite) (h : matchColonAttr s = some w) :
    ∃ before after rest,
      s = ('<' :: before ++ ':' :: after ++ ['>']) ++ rest ∧
      (∀ c ∈ before, notAngle c = true) ∧
      w.matched = '<' :: before ++ ':' :: after ++ ['>'] ∧
      ((countChar '"' before % 2 = 1 ∧ w.replacement = w.matched ∧ w.rewrote = false) ∨
        (countChar '"' before % 2 ≠ 1 ∧
          w.replacement = '<' :: before ++ '=' :: after ++ ['>'] ∧ w.rewrote = true)) := by
  unfold matchColonAttr at h
  obtain ⟨s1, rfl, h1⟩ := lit_sound _ _ _ _ h
  obtain ⟨before, s2, rfl, hb, -, h2⟩ := greedy_sound _ _ _ _ _ h1
  obtain ⟨s3, rfl, h3⟩ := lit_sound _ _ _ _ h2
  obtain ⟨after, s4, rfl, -, -, h4⟩ := greedy_sound _ _ _ _ _ h3
  obtain ⟨rest, rfl, h5⟩ := lit_sound _ _ _ _ h4
  refine ⟨before, after, rest, by simp, hb, ?_⟩
  dsimp only at h5
  split at h5
  · rename_i hq
    simp only [Option.some.injEq] at h5
    subst h5
    exact ⟨rfl, Or.inl ⟨hq, rfl, rfl⟩⟩
  · rename_i hq
    simp only [Option.some.injEq] at h5
    subst h5
    exact ⟨rfl, Or.inr ⟨hq, rfl, rfl⟩⟩

/-! ## No rewrite rule adds a colon -/

theorem isWordChar_colon : isWordChar ':' = false := by decide

theorem matchSelfClosing_colonSafe : ColonSafe matchSelfClosing := by
  intro s w h
  obtain ⟨tag, spaces, attributes, rest, hs, htag, -, -, hm, hr⟩ := matchSelfClosing_sound s w h
  refine ⟨⟨rest, by rw [hm]; exact hs⟩, by rw [hm]; simp, ?_⟩
  have ht : List.count ':' tag = 0 := countChar_word ':' isWordChar_colon tag htag
  rcases hr with ⟨h1, h2⟩ | ⟨h1, h2⟩
  · rw [h1, h2]; simp
  · rw [h1, h2, hm]
    simp [countChar]
    omega

theorem matchIdShorthand_colonSafe : ColonSafe matchIdShorthand := by
  intro s w h
  obtain ⟨tag, spaces1, id, spaces2, tail, rest, hs, htag, -, hid, -, -, hm, hr⟩ :=
    matchIdShorthand_sound s w h
  refine ⟨⟨rest, by rw [hm]; exact hs⟩, by rw [hm]; simp, ?_⟩
  have ht : List.count ':' tag = 0 := countChar_word ':' isWordChar_colon tag htag
  have hi : List.count ':' id = 0 := countChar_word ':' isWordChar_colon id hid
  rcases hr with ⟨h1, h2⟩ | ⟨h1, h2⟩
  · rw [h1, h2]; simp
  · rw [h1, h2, hm]
    simp [countChar]
    omega

theorem matchTextShorthand_colonSafe : ColonSafe matchTextShorthand := by
  intro s w h
  obtain ⟨tag, content, spaces, tail, rest, hs, htag, -, hm, hr⟩ :=
    matchTextShorthand_sound s w h
  refine ⟨⟨rest, by rw [hm]; exact hs⟩, by rw [hm]; simp, ?_⟩
  have ht : List.count ':' tag = 0 := countChar_word ':' isWordChar_colon tag htag
  rcases hr with ⟨h1, h2⟩ | ⟨h1, h2⟩
  · rw [h1, h2]; simp
  · rw [h1, h2, hm]
    cases tail with
    | nil =>
      simp [countChar]
      omega
    | cons t ts =>
      simp [countChar, List.count_cons]
      omega

theorem matchColonAttr_colonSafe : ColonSafe matchColonAttr := by
  intro s w h
  obtain ⟨before, after, rest, hs, -, hm, hr⟩ := matchColonAttr_sound s w h
  refine ⟨⟨rest, by rw [hm]; exact hs⟩, by rw [hm]; simp, ?_⟩
  rcases hr with ⟨-, h1, h2⟩ | ⟨-, h1, h2⟩
  · rw [h1, h2]; simp
  · rw [h1, h2, hm]
    simp [countChar]
    omega

/-- One pass of a rule never raises the number of colons. -/
theorem replaceAll_colons (m : List Char → Option Rewrite) (hm : ColonSafe m) (s : List Char) :
    countChar ':' (replaceAll m s) ≤ countChar ':' s := by
  have := replaceGo_colons m hm s.length s (Nat.le_refl _)
  unfold replaceAll
  omega

theorem firstRewrites_colons (s : List Char) :
    countChar ':' (firstRewrites s) ≤ countChar ':' s := by
  unfold firstRewrites
  have h1 := replaceAll_colons matchSelfClosing matchSelfClosing_colonSafe s
  have h2 := replaceAll_colons matchIdShorthand matchIdShorthand_colonSafe
    (replaceAll matchSelfClosing s)
  have h3 := replaceAll_colons matchTextShorthand matchTextShorthand_colonSafe
    (replaceAll matchIdShorthand (replaceAll matchSelfClosing s))
  omega

/-- A pass of the loop that rewrote lowers the number of colons. -/
theorem colonPass_decreases (s : List Char) (h : (replaceGo matchColonAttr 0 s).2 = true) :
    countChar ':' (replaceGo matchColonAttr 0 s).1 < countChar ':' s := by
  have := replaceGo_colons matchColonAttr matchColonAttr_colonSafe s.length s (Nat.le_refl _)
  rw [h] at this
  simp at this
  omega

/-- The loop stops within one pass more than there are colons. -/
theorem colonLoop_terminates :
    ∀ (fuel : Nat) (s : List Char), countChar ':' s + 1 ≤ fuel →
      ∃ out n, colonLoop fuel s = some (out, n) ∧ n ≤ countChar ':' s + 1 := by
  intro fuel
  induction fuel with
  | zero => intro s h; omega
  | succ fuel ih =>
    intro s h
    simp only [colonLoop]
    split
    · rename_i hr
      have hdec := colonPass_decreases s hr
      obtain ⟨out, n, hl, hn⟩ := ih (replaceGo matchColonAttr 0 s).1 (by omega)
      rw [hl]
      exact ⟨out, n + 1, rfl, by omega⟩
    · exact ⟨_, 1, rfl, by omega⟩

/-- More fuel does not change what the loop returns. -/
theorem colonLoop_mono :
    ∀ (fuel fuel2 : Nat) (s : List Char) (r : List Char × Nat),
      colonLoop fuel s = some r → fuel ≤ fuel2 → colonLoop fuel2 s = some r := by
  intro fuel
  induction fuel with
  | zero => intro fuel2 s r h; simp [colonLoop] at h
  | succ fuel ih =>
    intro fuel2 s r h hle
    cases fuel2 with
    | zero => omega
    | succ fuel2 =>
      simp only [colonLoop] at h ⊢
      split at h
      · rename_i hr
        rw [if_pos hr]
        cases hl : colonLoop fuel (replaceGo matchColonAttr 0 s).1 with
        | none => rw [hl] at h; simp at h
        | some q =>
          rw [ih fuel2 _ q hl (by omega)]
          rw [hl] at h
          exact h
      · rename_i hr
        rw [if_neg hr]
        exact h

/-! ## Guarded strings are left alone -/

theorem scan_append (a : List Char) : ∀ (st : Option Bool) (b : List Char),
    scan st (a ++ b) = (scan st a).bind fun st2 => scan st2 b := by
  induction a with
  | nil => intro st b; simp [scan]
  | cons c cs ih =>
    intro st b
    simp only [List.cons_append, scan]
    cases scanChar st c with
    | none => simp
    | some st2 => simpa using ih st2 b

theorem guarded_suffix (a b : List Char) (h : Guarded (a ++ b)) : Guarded b := by
  obtain ⟨st, hst⟩ := h
  rw [scan_append] at hst
  cases hs : scan st a with
  | none => rw [hs] at hst; simp at hst
  | some st2 => rw [hs] at hst; exact ⟨st2, by simpa using hst⟩

theorem guarded_tail (c : Char) (cs : List Char) (h : Guarded (c :: cs)) : Guarded cs :=
  guarded_suffix [c] cs h

theorem notAngle_ne (c : Char) (h : notAngle c = true) : c ≠ '<' ∧ c ≠ '>' := by
  simpa [notAngle] using h

theorem scan_parity (pre : List Char) (hpre : ∀ c ∈ pre, notAngle c = true) :
    ∀ (b : Bool) (tl : List Char), (scan (some b) (pre ++ ':' :: tl)).isSome = true →
      (countChar '"' pre + (if b then 1 else 0)) % 2 = 1 := by
  induction pre with
  | nil =>
    intro b tl h
    cases b with
    | true => simp [countChar]
    | false => simp [scan, scanChar] at h
  | cons c cs ih =>
    intro b tl h
    obtain ⟨h1, h2⟩ := notAngle_ne c (hpre c (List.mem_cons_self _ _))
    have hcs : ∀ x ∈ cs, notAngle x = true := fun x hx => hpre x (List.mem_cons_of_mem _ hx)
    simp only [List.cons_append, scan, scanChar, if_neg h1, if_neg h2] at h
    by_cases hq : c = '"'
    · subst hq
      simp only [if_true] at h
      have := ih hcs (!b) tl h
      rw [countChar_cons]
      cases b <;> simp at this ⊢ <;> omega
    · simp only [if_neg hq] at h
      rw [countChar_cons, if_neg hq]
      by_cases hc : c = ':'
      · subst hc
        cases b with
        | true => simpa using ih hcs true tl (by simpa using h)
        | false => simp at h
      · simp only [if_neg hc] at h
        simpa using ih hcs b tl h

/-- In a guarded string a colon that closes a run after `<` has an odd number of
`"` before it in the run. -/
theorem guarded_colon (pre tl : List Char) (hpre : ∀ c ∈ pre, notAngle c = true)
    (h : Guarded ('<' :: (pre ++ ':' :: tl))) : countChar '"' pre % 2 = 1 := by
  obtain ⟨st, hst⟩ := h
  have : (scan (some false) (pre ++ ':' :: tl)).isSome = true := by
    simpa [scan, scanChar] using hst
  simpa using scan_parity pre hpre false tl this

theorem isWordChar_notAngle (c : Char) (h : isWordChar c = true) : notAngle c = true := by
  have h1 := isWordChar_ne c '<' (by decide) h
  have h2 := isWordChar_ne c '>' (by decide) h
  simp [notAngle, h1, h2]

theorem isSpace_notAngle (c : Char) (h : isSpace c = true) : notAngle c = true := by
  rw [isSpace_eq c h]; decide

theorem matchColonAttr_quiet : QuietOn matchColonAttr := by
  intro s w hg h
  obtain ⟨before, after, rest, hs, hb, hm, hr⟩ := matchColonAttr_sound s w h
  have hpar : countChar '"' before % 2 = 1 := by
    apply guarded_colon before (after ++ ['>'] ++ rest) hb
    rw [hs] at hg
    simpa using hg
  refine ⟨⟨rest, by rw [hm]; exact hs⟩, by rw [hm]; simp, ?_⟩
  rcases hr with ⟨-, h1, h2⟩ | ⟨hne, -, -⟩
  · exact ⟨h1, h2⟩
  · exact absurd hpar hne

theorem matchSelfClosing_quiet : QuietOn matchSelfClosing := by
  intro s w hg h
  obtain ⟨tag, spaces, attributes, rest, hs, htag, -, -, hm, -⟩ := matchSelfClosing_sound s w h
  have hpar : countChar '"' tag % 2 = 1 := by
    apply guarded_colon tag (spaces ++ attributes ++ ['>'] ++ rest)
      (fun c hc => isWordChar_notAngle c (htag c hc))
    rw [hs] at hg
    simpa using hg
  rw [countChar_word '"' (by decide) tag htag] at hpar
  omega

theorem matchTextShorthand_quiet : QuietOn matchTextShorthand := by
  intro s w hg h
  obtain ⟨tag, content, spaces, tail, rest, hs, htag, -, hm, -⟩ :=
    matchTextShorthand_sound s w h
  have hpar : countChar '"' tag % 2 = 1 := by
    apply guarded_colon tag ('"' :: content ++ '"' :: spaces ++ tail ++ ['>'] ++ rest)
      (fun c hc => isWordChar_notAngle c (htag c hc))
    rw [hs] at hg
    simpa using hg
  rw [countChar_word '"' (by decide) tag htag] at hpar
  omega

theorem matchIdShorthand_quiet : QuietOn matchIdShorthand := by
  intro s w hg h
  obtain ⟨tag, spaces1, id, spaces2, tail, rest, hs, htag, hsp, -, -, -, hm, -⟩ :=
    matchIdShorthand_sound s w h
  have hpar : countChar '"' (tag ++ spaces1) % 2 = 1 := by
    apply guarded_colon (tag ++ spaces1) (id ++ spaces2 ++ tail ++ ['>'] ++ rest)
    · intro c hc
      rcases List.mem_append.mp hc with hc | hc
      · exact isWordChar_notAngle c (htag c hc)
      · exact isSpace_notAngle c (hsp c hc)
    · rw [hs] at hg
      simpa using hg
  rw [countChar_append, countChar_word '"' (by decide) tag htag,
    countChar_spaces '"' (by decide) spaces1 hsp] at hpar
  omega

theorem replaceGo_quiet (m : List Char → Option Rewrite) (hm : QuietOn m) :
    ∀ (n : Nat) (s : List Char), s.length ≤ n → Guarded s → replaceGo m 0 s = (s, false) := by
  intro n
  induction n with
  | zero =>
    intro s hs _
    have : s = [] := List.length_eq_zero.mp (Nat.le_zero.mp hs)
    subst this
    simp [replaceGo]
  | succ n ih =>
    intro s hs hg
    cases s with
    | nil => simp [replaceGo]
    | cons c cs =>
      cases hw : m (c :: cs) with
      | none =>
        rw [replaceGo_miss m c cs hw, ih cs (by simpa using hs) (guarded_tail c cs hg)]
      | some w =>
        obtain ⟨⟨rest, hrest⟩, hne, hrep, hrw⟩ := hm _ _ hg hw
        rw [replaceGo_hit m _ rest w hw hrest hne]
        have hlen : rest.length ≤ n := by
          have h1 : (c :: cs).length = w.matched.length + rest.length := by
            rw [hrest, List.length_append]
          have h2 : 0 < w.matched.length := List.length_pos.mpr hne
          simp only [List.length_cons] at h1 hs
          omega
        have hgr : Guarded rest := guarded_suffix w.matched rest (hrest ▸ hg)
        rw [ih rest hlen hgr, hrep, hrw, ← hrest]
        simp

theorem replaceAll_quiet (m : List Char → Option Rewrite) (hm : QuietOn m) (s : List Char)
    (hg : Guarded s) : replaceAll m s = s := by
  unfold replaceAll
  rw [replaceGo_quiet m hm s.length s (Nat.le_refl _) hg]

/-- On a guarded string the expander makes one pass of its loop and returns the
string as it is. -/
theorem expand_guarded (fuel : Nat) (s : List Char) (hg : Guarded s) :
    expand (fuel + 1) s = some (s, 1) := by
  unfold expand firstRewrites
  rw [replaceAll_quiet _ matchSelfClosing_quiet s hg, replaceAll_quiet _ matchIdShorthand_quiet s hg,
    replaceAll_quiet _ matchTextShorthand_quiet s hg]
  simp [colonLoop, replaceGo_quiet _ matchColonAttr_quiet s.length s (Nat.le_refl _) hg]

/-! ## Canonical markup is guarded -/

theorem scan_outside (xs : List Char) (h : ∀ c ∈ xs, c ≠ '<') : scan none xs = some none := by
  induction xs with
  | nil => rfl
  | cons c cs ih =>
    have h1 : c ≠ '<' := h c (List.mem_cons_self _ _)
    have : scanChar none c = some none := by
      simp only [scanChar, if_neg h1]
      split <;> rfl
    simp only [scan, this]
    exact ih fun x hx => h x (List.mem_cons_of_mem _ hx)

theorem scan_stable (b : Bool) (xs : List Char)
    (h : ∀ c ∈ xs, c ≠ '<' ∧ c ≠ '"' ∧ (b = false → c ≠ ':')) :
    scan (some b) xs = some (some b) ∨ scan (some b) xs = some none := by
  induction xs with
  | nil => exact Or.inl rfl
  | cons c cs ih =>
    obtain ⟨h1, h2, h3⟩ := h c (List.mem_cons_self _ _)
    have hcs : ∀ x ∈ cs, x ≠ '<' ∧ x ≠ '"' ∧ (b = false → x ≠ ':') :=
      fun x hx => h x (List.mem_cons_of_mem _ hx)
    by_cases hgt : c = '>'
    · right
      have : scanChar (some b) c = some none := by simp [scanChar, hgt]
      simp only [scan, this]
      exact scan_outside cs fun x hx => (hcs x hx).1
    · have : scanChar (some b) c = some (some b) := by
        simp only [scanChar, if_neg h1, if_neg hgt, if_neg h2]
        by_cases hc : c = ':'
        · cases b with
          | true => simp [hc]
          | false => exact absurd hc (h3 rfl)
        · simp [hc]
      simp only [scan, this]
      exact ih hcs

theorem nameChar_ne (c d : Char) (hd : (isWordChar d || d == '-') = false)
    (hc : (isWordChar c || c == '-') = true) : c ≠ d := by
  intro h
  rw [h, hd] at hc
  exact Bool.noConfusion hc

theorem nameOk_chars (n : List Char) (h : nameOk n = true) :
    ∀ c ∈ n, c ≠ '<' ∧ c ≠ '>' ∧ c ≠ '"' ∧ c ≠ ':' := by
  intro c hc
  have hall : (isWordChar c || c == '-') = true := by
    simp only [nameOk, Bool.and_eq_true] at h
    exact List.all_eq_true.mp h.2 c hc
  exact ⟨nameChar_ne c '<' (by decide) hall, nameChar_ne c '>' (by decide) hall,
    nameChar_ne c '"' (by decide) hall, nameChar_ne c ':' (by decide) hall⟩

theorem scan_plain (xs : List Char) (h : ∀ c ∈ xs, c ≠ '<' ∧ c ≠ '>' ∧ c ≠ '"' ∧ c ≠ ':')
    (st : Option Bool) : scan st xs = some st := by
  induction xs with
  | nil => rfl
  | cons c cs ih =>
    obtain ⟨h1, h2, h3, h4⟩ := h c (List.mem_cons_self _ _)
    have : scanChar st c = some st := by
      cases st <;> simp [scanChar, h1, h2, h3, h4]
    simp only [scan, this]
    exact ih fun x hx => h x (List.mem_cons_of_mem _ hx)

theorem renderAttr_forall (P : Char → Prop) (a : Attribute) (hsp : P ' ') (heq : P '=')
    (hdq : a.quoting = .double → P '"') (hsq : a.quoting = .single → P '\'')
    (hname : ∀ c ∈ a.name, P c) (hval : ∀ c ∈ a.value, P c) : ∀ c ∈ renderAttr a, P c := by
  intro c hc
  unfold renderAttr at hc
  cases hq : a.quoting <;>
    simp only [hq, List.mem_cons, List.mem_append, List.mem_singleton] at hc
  · rcases hc with (rfl | hc) | rfl | (rfl | hc) | rfl | hc
    exacts [hsp, hname c hc, heq, hdq hq, hval c hc, hdq hq, absurd hc (List.not_mem_nil c)]
  · rcases hc with (rfl | hc) | rfl | (rfl | hc) | rfl | hc
    exacts [hsp, hname c hc, heq, hsq hq, hval c hc, hsq hq, absurd hc (List.not_mem_nil c)]
  · rcases hc with (rfl | hc) | rfl | hc
    exacts [hsp, hname c hc, heq, hval c hc]

theorem scan_attr (a : Attribute) (hn : nameOk a.name = true) (hv : valueOk a = true)
    (hg : attrGuarded a = true) (st : Option Bool) (hst : st = none ∨ st = some false) :
    scan st (renderAttr a) = some none ∨ scan st (renderAttr a) = some (some false) := by
  have hname := nameOk_chars a.name hn
  have hlt : ∀ c ∈ a.value, c ≠ '<' := by
    intro c hc
    cases hq : a.quoting <;> simp only [attrGuarded, hq, List.all_eq_true] at hg <;>
      have := hg c hc <;> simp at this
    · exact this
    · exact this.2
    · exact this.2
  rcases hst with rfl | rfl
  · left
    apply scan_outside
    exact renderAttr_forall (fun c => c ≠ '<') a (by decide) (by decide) (fun _ => by decide)
      (fun _ => by decide) (fun c hc => (hname c hc).1) hlt
  · cases hq : a.quoting
    · -- double-quoted: the value is scanned at an odd number of quotes
      have hval : ∀ c ∈ a.value, c ≠ '<' ∧ c ≠ '"' ∧ (true = false → c ≠ ':') := by
        intro c hc
        simp only [valueOk, hq, List.all_eq_true] at hv
        exact ⟨hlt c hc, by simpa using hv c hc, fun e => Bool.noConfusion e⟩
      have hhead : scan (some false) (' ' :: a.name ++ ['=']) = some (some false) := by
        apply scan_plain
        intro c hc
        simp only [List.mem_cons, List.mem_append, List.mem_singleton] at hc
        rcases hc with (rfl | hc) | rfl | hc
        · decide
        · exact hname c hc
        · decide
        · exact absurd hc (List.not_mem_nil c)
      have hsplit : renderAttr a = (' ' :: a.name ++ ['=']) ++ ('"' :: (a.value ++ ['"'])) := by
        simp [renderAttr, hq]
      rw [hsplit, scan_append, hhead]
      show scan (some true) (a.value ++ ['"']) = _ ∨ scan (some true) (a.value ++ ['"']) = _
      rw [scan_append]
      rcases scan_stable true a.value hval with h1 | h1
      · right; rw [h1]; rfl
      · left; rw [h1]; rfl
    · -- single-quoted: no colon and no double quote in the whole attribute
      have hval : ∀ c ∈ a.value, c ≠ '<' ∧ c ≠ '"' ∧ (false = false → c ≠ ':') := by
        intro c hc
        simp only [attrGuarded, hq, List.all_eq_true] at hg
        have := hg c hc
        simp at this
        exact ⟨this.2, this.1.2, fun _ => this.1.1⟩
      exact (scan_stable false (renderAttr a) (renderAttr_forall _ a
        ⟨by decide, by decide, fun _ => by decide⟩ ⟨by decide, by decide, fun _ => by decide⟩
        (fun e => by rw [hq] at e; cases e) (fun _ => ⟨by decide, by decide, fun _ => by decide⟩)
        (fun c hc => ⟨(hname c hc).1, (hname c hc).2.2.1, fun _ => (hname c hc).2.2.2⟩)
        hval)).symm
    · -- unquoted: no colon and no double quote in the whole attribute
      have hval : ∀ c ∈ a.value, c ≠ '<' ∧ c ≠ '"' ∧ (false = false → c ≠ ':') := by
        intro c hc
        simp only [attrGuarded, hq, List.all_eq_true] at hg
        have := hg c hc
        simp at this
        exact ⟨this.2, this.1.2, fun _ => this.1.1⟩
      exact (scan_stable false (renderAttr a) (renderAttr_forall _ a
        ⟨by decide, by decide, fun _ => by decide⟩ ⟨by decide, by decide, fun _ => by decide⟩
        (fun e => by rw [hq] at e; cases e) (fun e => by rw [hq] at e; cases e)
        (fun c hc => ⟨(hname c hc).1, (hname c hc).2.2.1, fun _ => (hname c hc).2.2.2⟩)
        hval)).symm

theorem scan_attrs (attrs : List Attribute)
    (h : ∀ a ∈ attrs, nameOk a.name = true ∧ valueOk a = true ∧ attrGuarded a = true) :
    ∀ (st : Option Bool), st = none ∨ st = some false →
      scan st (renderAttrs attrs) = some none ∨ scan st (renderAttrs attrs) = some (some false) := by
  induction attrs with
  | nil =>
    intro st hst
    rcases hst with rfl | rfl
    · exact Or.inl rfl
    · exact Or.inr rfl
  | cons a as ih =>
    intro st hst
    obtain ⟨h1, h2, h3⟩ := h a (List.mem_cons_self _ _)
    have has := ih fun x hx => h x (List.mem_cons_of_mem _ hx)
    simp only [renderAttrs]
    rw [scan_append]
    rcases scan_attr a h1 h2 h3 st hst with e | e
    · rw [e]; exact has none (Or.inl rfl)
    · rw [e]; exact has (some false) (Or.inr rfl)

theorem scan_piece (p : Piece) (hok : pieceOk p = true) (hg : pieceGuarded p = true) :
    scan none (renderPiece p) = some none := by
  cases p with
  | text t =>
    apply scan_outside
    intro c hc
    simp only [pieceOk, List.all_eq_true] at hok
    simpa using hok c hc
  | openTag name attrs =>
    simp only [pieceOk, Bool.and_eq_true, List.all_eq_true] at hok
    simp only [pieceGuarded, List.all_eq_true] at hg
    have hname := nameOk_chars name hok.1
    have hsplit : renderPiece (.openTag name attrs) = ['<'] ++ (name ++ (renderAttrs attrs ++ ['>'])) := by
      simp [renderPiece]
    rw [hsplit, scan_append]
    show scan (some false) (name ++ (renderAttrs attrs ++ ['>'])) = some none
    rw [scan_append, scan_plain name hname]
    show scan (some false) (renderAttrs attrs ++ ['>']) = some none
    rw [scan_append]
    rcases scan_attrs attrs (fun a ha => ⟨(hok.2 a ha).1, (hok.2 a ha).2, hg a ha⟩)
      (some false) (Or.inr rfl) with e | e <;> rw [e] <;> rfl
  | closeTag name =>
    simp only [pieceOk] at hok
    have hname := nameOk_chars name hok
    have hsplit : renderPiece (.closeTag name) = ['<'] ++ (('/' :: name) ++ ['>']) := by
      simp [renderPiece]
    rw [hsplit, scan_append]
    show scan (some false) (('/' :: name) ++ ['>']) = some none
    rw [scan_append, scan_plain ('/' :: name) (by
      intro c hc
      rcases List.mem_cons.mp hc with rfl | hc
      · decide
      · exact hname c hc)]
    rfl

/-- Canonical markup whose colons sit in double-quoted values passes the scan. -/
theorem render_guarded (ps : List Piece) (h : CanonicalGuarded ps = true) :
    scan none (render ps) = some none := by
  induction ps with
  | nil => rfl
  | cons p ps ih =>
    simp only [CanonicalGuarded, List.all_cons, Bool.and_eq_true] at h
    simp only [render]
    rw [scan_append, scan_piece p h.1.1 h.1.2]
    exact ih (by simpa [CanonicalGuarded] using h.2)

/-! ## The expander on the end-to-end example -/

/-- The input of the end-to-end example. -/
theorem example_firstRewrites :
    firstRewrites "<div: class=\"a\"><span :out>Hi</span></div>".toList =
      "<div class=\"a\"></div><span id=\"out\" >Hi</span></div>".toList := by
  decide

theorem example_pass :
    replaceGo matchColonAttr 0 "<div class=\"a\"></div><span id=\"out\" >Hi</span></div>".toList =
      ("<div class=\"a\"></div><span id=\"out\" >Hi</span></div>".toList, false) := by
  decide

theorem example_parse (h : Host) (fuel : Nat) :
    SVDocument.parse h (fuel + 1) "<div: class=\"a\"><span :out>Hi</span></div>".toList false =
      some (.ok "<div class=\"a\"></div><span id=\"out\" >Hi</span></div>".toList) := by
  have h0 : ("<div: class=\"a\"><span :out>Hi</span></div>".toList).isEmpty = false := by decide
  simp only [SVDocument.parse, h0, expand, example_firstRewrites, colonLoop, example_pass]
  rfl

theorem parse_zero_fuel (h : Host) (content : List Char) (safe : Bool)
    (hne : content.isEmpty = false) : SVDocument.parse h 0 content safe = none := by
  simp [SVDocument.parse, hne, expand, colonLoop]

/-- More fuel does not change what `parse` returns. -/
theorem parse_mono (h : Host) (content : List Char) (safe : Bool) (fuel fuel2 : Nat)
    (r : Except JSError (List Char)) (hr : SVDocument.parse h fuel content safe = some r)
    (hle : fuel ≤ fuel2) : SVDocument.parse h fuel2 content safe = some r := by
  unfold SVDocument.parse at hr ⊢
  split
  · rename_i he
    rw [if_pos he] at hr
    exact hr
  · rename_i he
    rw [if_neg he] at hr
    unfold expand at hr ⊢
    cases hl : colonLoop fuel (firstRewrites content) with
    | none => rw [hl] at hr; simp at hr
    | some q =>
      rw [colonLoop_mono fuel fuel2 _ q hl hle]
      rw [hl] at hr
      exact hr

/-! ## What `safe` returns when it returns -/

mutual
theorem selectNode_prune (p : Node → Bool)
    (hp : ∀ i k cs cs2, p (.mk i k cs) = p (.mk i k cs2)) :
    ∀ (n m : Node), pruneNode p n = some m → selectNode p m = []
  | .mk i k cs, m, h => by
    simp only [pruneNode] at h
    split at h
    · simp at h
    · rename_i hn
      simp only [Option.some.injEq] at h
      subst h
      have hn2 : p (.mk i k (pruneNodes p cs)) = false := by
        rw [hp i k (pruneNodes p cs) cs]; simpa using hn
      simp [selectNode, hn2, selectNodes_prune p hp cs]
theorem selectNodes_prune (p : Node → Bool)
    (hp : ∀ i k cs cs2, p (.mk i k cs) = p (.mk i k cs2)) :
    ∀ (ns : List Node), selectNodes p (pruneNodes p ns) = []
  | [] => by simp [pruneNodes, selectNodes]
  | n :: ns => by
    simp only [pruneNodes]
    split
    · rename_i m hm
      simp [selectNodes, selectNode_prune p hp n m hm, selectNodes_prune p hp ns]
    · exact selectNodes_prune p hp ns
end

theorem hasEventAttr_drop (attrs : List (String × String)) :
    hasEventAttr (dropEventAttrs attrs) = false := by
  simp only [hasEventAttr, dropEventAttrs, List.any_eq_false, List.mem_filter]
  intro a ha
  simpa using ha.2

mutual
theorem selectNode_clean_event : ∀ (n : Node), selectNode isEventElement (cleanNode n) = []
  | .mk i (.element tag attrs r) cs => by
    simp [cleanNode, selectNode, isEventElement, hasEventAttr_drop, selectNodes_clean_event cs]
  | .mk i (.text t) cs => by
    simp [cleanNode, selectNode, isEventElement, selectNodes_clean_event cs]
  | .mk i (.comment t) cs => by
    simp [cleanNode, selectNode, isEventElement, selectNodes_clean_event cs]
  | .mk i .document cs => by
    simp [cleanNode, selectNode, isEventElement, selectNodes_clean_event cs]
theorem selectNodes_clean_event : ∀ (ns : List Node),
    selectNodes isEventElement (cleanNodes ns) = []
  | [] => by simp [cleanNodes, selectNodes]
  | n :: ns => by
    simp [cleanNodes, selectNodes, selectNode_clean_event n, selectNodes_clean_event ns]
end

mutual
theorem selectNode_clean_unsafe : ∀ (n : Node), selectNode isUnsafeElement n = [] →
    selectNode isUnsafeElement (cleanNode n) = []
  | .mk i (.element tag attrs r) cs, h => by
    simp only [selectNode, List.append_eq_nil] at h
    have h1 : isUnsafeElement (.mk i (.element tag (dropEventAttrs attrs) r) (cleanNodes cs)) =
        false := by
      have := h.1
      simp only [isUnsafeElement] at this ⊢
      split at this
      · simp at this
      · rename_i hx; simpa using hx
    simp [cleanNode, selectNode, h1, selectNodes_clean_unsafe cs h.2]
  | .mk i (.text t) cs, h => by
    simp only [selectNode, List.append_eq_nil] at h
    simp [cleanNode, selectNode, isUnsafeElement, selectNodes_clean_unsafe cs h.2]
  | .mk i (.comment t) cs, h => by
    simp only [selectNode, List.append_eq_nil] at h
    simp [cleanNode, selectNode, isUnsafeElement, selectNodes_clean_unsafe cs h.2]
  | .mk i .document cs, h => by
    simp only [selectNode, List.append_eq_nil] at h
    simp [cleanNode, selectNode, isUnsafeElement, selectNodes_clean_unsafe cs h.2]
theorem selectNodes_clean_unsafe : ∀ (ns : List Node), selectNodes isUnsafeElement ns = [] →
    selectNodes isUnsafeElement (cleanNodes ns) = []
  | [], _ => by simp [cleanNodes, selectNodes]
  | n :: ns, h => by
    simp only [selectNodes, List.append_eq_nil] at h
    simp [cleanNodes, selectNodes, selectNode_clean_unsafe n h.1, selectNodes_clean_unsafe ns h.2]
end

/-- Whenever `safe` returns a string, that string is the serialization of a tree
with no element of `UnsafeTags` and no event attribute. -/
theorem safe_ok_clean (h : Host) (content out : List Char)
    (hs : SVDocument.safe h content = .ok out) :
    ∃ tree, out = h.serialize tree ∧ selectNodes isUnsafeElement tree = [] ∧
      selectNodes isEventElement tree = [] := by
  have hkind : ∀ i k cs cs2, isUnsafeElement (.mk i k cs) = isUnsafeElement (.mk i k cs2) := by
    intro i k cs cs2
    cases k <;> rfl
  have hpruned := selectNodes_prune isUnsafeElement hkind (h.parseFragment content)
  unfold SVDocument.safe at hs
  cases hc : selectNodes isEventElement (pruneNodes isUnsafeElement (h.parseFragment content)) with
  | nil =>
    simp only [hc] at hs
    exact ⟨_, (Except.ok.inj hs).symm, hpruned, hc⟩
  | cons n ns =>
    simp only [hc] at hs
    split at hs
    · simp at hs
    · split at hs
      · simp at hs
      · exact ⟨_, (Except.ok.inj hs).symm, selectNodes_clean_unsafe _ hpruned,
          selectNodes_clean_event _⟩

/-- The loop `for(element of collection)` of `safe` throws when `element` is not
bound and the collection is not empty. -/
theorem safe_event_throws (h : Host) (content : List Char)
    (hglobal : h.globals.contains "element" = false)
    (hattr : (selectNodes isEventElement
      (pruneNodes isUnsafeElement (h.parseFragment content))).isEmpty = false) :
    SVDocument.safe h content = .error (.referenceError "element") := by
  have hres : resolves h ["content", "tmp", "i", "j", "collection"] "element" = false := by
    have h1 : ["content", "tmp", "i", "j", "collection"].contains "element" = false := by decide
    have h2 : scriptGlobals.contains "element" = false := by decide
    simp only [resolves, h1, h2, hglobal, Bool.or_self]
  unfold SVDocument.safe
  cases hc : selectNodes isEventElement (pruneNodes isUnsafeElement (h.parseFragment content)) with
  | nil => rw [hc] at hattr; simp at hattr
  | cons n ns => simp [hres, hc]

/-! ## Navigation and the boundary node (C1, C2) -/

/-- C1 (code defect): sibling navigation has no boundary test. On `pageDom`,
with the `div` 4 as boundary node, the root proxy's `nextElementSibling` is a
proxy of the `div` 6, which is neither the boundary node nor one of its
descendants; that proxy's `parentElement` is a proxy of `body` 3, the real
parent of the boundary node, and from there `html` and `head` are reached. -/
theorem C1_sibling_navigation_leaves_boundary :
    VElement.new pageDom 4 4 = .ok ⟨4, 4⟩ ∧
    VElement.navigate pageDom ⟨4, 4⟩ [.nextElementSibling] = .ok (some ⟨6, 4⟩) ∧
    pageDom.contains 4 6 = false ∧
    VElement.navigate pageDom ⟨4, 4⟩ [.nextElementSibling, .parentElement] = .ok (some ⟨3, 4⟩) ∧
    pageDom.parentElement 4 = some 3 ∧
    pageDom.contains 4 3 = false ∧
    VElement.navigate pageDom ⟨4, 4⟩
      [.nextElementSibling, .parentElement, .parentElement, .firstElementChild] =
        .ok (some ⟨2, 4⟩) := by
  decide

/-- C2: the `parentElement` of a proxy built as `VElement(B, B)` is `null`, in
every state of the trees, whatever the real parent of `B` is. -/
theorem C2_parentElement_of_boundary_is_null (d : Dom) (B : Nat) (p : VElement)
    (hp : VElement.new d B B = .ok p) : p.parentElement d = .ok none := by
  unfold VElement.new at hp
  split at hp
  · exact absurd hp (by simp)
  · simp only [Except.ok.injEq] at hp
    subst hp
    simp [VElement.parentElement]

/-- C2 at the `div` 4 of `pageDom`, whose real parent is `body` 3. -/
theorem C2_parentElement_of_boundary_is_null_witness :
    pageDom.parentElement 4 = some 3 ∧ VElement.parentElement pageDom ⟨4, 4⟩ = .ok none :=
  ⟨by decide, C2_parentElement_of_boundary_is_null pageDom 4 ⟨4, 4⟩ (by decide)⟩

/-! ## The sanitizer (C3) -/

/-- C3 (code defect): `safe` has a failure path. When the global environment
does not bind `element` and, once the elements of `UnsafeTags` are removed, the
parsed markup still holds an element with an event attribute, the loop
`for(element of collection)` throws a `ReferenceError` and no string is
returned. -/
theorem C3_safe_throws_on_event_attribute (h : Host) (content : List Char)
    (hglobal : h.globals.contains "element" = false)
    (hattr : (selectNodes isEventElement
      (pruneNodes isUnsafeElement (h.parseFragment content))).isEmpty = false) :
    SVDocument.safe h content = .error (.referenceError "element") :=
  safe_event_throws h content hglobal hattr

/-- C3 at the markup of the end-to-end example, with `plainHost`. -/
theorem C3_safe_throws_on_event_attribute_witness :
    SVDocument.safe plainHost "<div onclick=\"bad()\">ok<script>evil()</script></div>".toList =
      .error (.referenceError "element") :=
  C3_safe_throws_on_event_attribute plainHost _ (by decide) (by decide)

/-! ## Content placed through a proxy (C4) -/

set_option maxHeartbeats 4000000 in
/-- C4 (code defect): `insertBefore` places content without any sanitizer test.
In `scriptScene` the tree of the document holds no element of `UnsafeTags` and
no event attribute; `doc.tree.insertBefore(s, c)`, with `s` the proxy that
`doc.createElement('SCRIPT')` returned, succeeds and the tree then holds a
`script` element. The sibling operation `appendChild` refuses the same node
with the safety-mismatch error. -/
theorem C4_insertBefore_places_unsanitized :
    ∃ sc, scriptScene = some sc ∧
      sc.dom.subtreeClean sc.doc.dom = true ∧
      (sc.doc.tree.insertBefore sc.dom (.proxy sc.script) (.proxy sc.child)).result = .ok () ∧
      (sc.doc.tree.insertBefore sc.dom (.proxy sc.script) (.proxy sc.child)).dom.subtreeClean
        sc.doc.dom = false ∧
      (sc.doc.tree.insertBefore sc.dom (.proxy sc.script) (.proxy sc.child)).dom.contains
        sc.doc.dom sc.script.element = true ∧
      (sc.doc.tree.appendChild plainHost sc.dom (.raw sc.script.element)).result =
        .ok (some
          ⟨"Element safety mismatch : Can't append an unsafe element to a safe element"⟩) := by
  refine ⟨_, rfl, ?_, ?_, ?_, ?_, ?_⟩ <;> decide

/-! ## The end-to-end example of the expander (C5) -/

/-- C5 as stated fails: for no amount of fuel does `parse` return the string the
claim gives for the end-to-end example. -/
theorem C5_claimed_output_not_returned :
    ¬ ∃ fuel, SVDocument.parse plainHost fuel
        "<div: class=\"a\"><span :out>Hi</span></div>".toList false =
      some (.ok "<div class=\"a\"><span id=\"out\">Hi</span></div>".toList) := by
  rintro ⟨fuel, h⟩
  cases fuel with
  | zero => rw [parse_zero_fuel plainHost _ false (by decide)] at h; simp at h
  | succ fuel =>
    rw [example_parse plainHost fuel] at h
    revert h
    decide

/-- C5 as amended: on the end-to-end example `parse` returns
`<div class="a"></div>`, then a `span` start tag that carries `id="out"` and
may have spaces before its `>`, then `Hi</span></div>`: the header
`<div: class="a">` becomes the pair `<div class="a"></div>`. -/
theorem C5_parse_example (h : Host) (fuel : Nat) :
    ∃ pad : List Char, pad.all isSpace = true ∧
      SVDocument.parse h (fuel + 1) "<div: class=\"a\"><span :out>Hi</span></div>".toList false =
        some (.ok ("<div class=\"a\"></div><span id=\"out\"".toList ++ pad ++
          ">Hi</span></div>".toList)) :=
  ⟨[' '], by decide, example_parse h fuel⟩

/-! ## Canonical markup (C6) -/

/-- C6 as stated fails: `<a href='x:y'>` is in canonical form, with a colon
inside a quoted attribute value, and `parse` rewrites that colon to `=`. -/
theorem C6_single_quoted_colon_rewritten :
    Canonical [.openTag "a".toList [⟨"href".toList, "x:y".toList, .single⟩]] = true ∧
    render [.openTag "a".toList [⟨"href".toList, "x:y".toList, .single⟩]] =
      "<a href='x:y'>".toList ∧
    SVDocument.parse plainHost 2 "<a href='x:y'>".toList false =
      some (.ok "<a href='x=y'>".toList) ∧
    ¬ ∃ fuel, SVDocument.parse plainHost fuel "<a href='x:y'>".toList false =
      some (.ok "<a href='x:y'>".toList) := by
  have hrun : SVDocument.parse plainHost 2 "<a href='x:y'>".toList false =
      some (.ok "<a href='x=y'>".toList) := by decide
  refine ⟨by decide, by decide, hrun, ?_⟩
  rintro ⟨fuel, h⟩
  by_cases hf : 2 ≤ fuel
  · rw [parse_mono plainHost _ false 2 fuel _ hrun hf] at h
    revert h
    decide
  · have : fuel = 0 ∨ fuel = 1 := by omega
    rcases this with rfl | rfl <;> revert h <;> decide

/-- C6 as amended: `parse` returns canonical markup unchanged when every
attribute value that holds a colon is double-quoted and no attribute value
holds a `<`; in particular a colon inside a double-quoted attribute value is
never rewritten. -/
theorem C6_parse_canonical_guarded (h : Host) (ps : List Piece) (fuel : Nat)
    (hc : CanonicalGuarded ps = true) :
    SVDocument.parse h (fuel + 1) (render ps) false = some (.ok (render ps)) := by
  have hg : Guarded (render ps) := ⟨none, by rw [render_guarded ps hc]; rfl⟩
  unfold SVDocument.parse
  split
  · rename_i he
    have : render ps = [] := by simpa using he
    rw [this]
  · rw [expand_guarded fuel (render ps) hg]
    rfl

/-- C6 as amended, at `<a href="http://x.org/" title='t'>go</a>`. -/
theorem C6_parse_canonical_guarded_witness :
    render [.openTag "a".toList [⟨"href".toList, "http://x.org/".toList, .double⟩,
        ⟨"title".toList, "t".toList, .single⟩], .text "go".toList, .closeTag "a".toList] =
      "<a href=\"http://x.org/\" title='t'>go</a>".toList ∧
    SVDocument.parse plainHost 1
      (render [.openTag "a".toList [⟨"href".toList, "http://x.org/".toList, .double⟩,
        ⟨"title".toList, "t".toList, .single⟩], .text "go".toList, .closeTag "a".toList]) false =
      some (.ok (render [.openTag "a".toList [⟨"href".toList, "http://x.org/".toList, .double⟩,
        ⟨"title".toList, "t".toList, .single⟩], .text "go".toList, .closeTag "a".toList])) :=
  ⟨by decide, C6_parse_canonical_guarded plainHost _ 0 (by decide)⟩

/-! ## Termination of the expander (C7) -/

/-- C7: with fuel for one pass more than the input has colons, `parse` returns;
its loop makes at most that many passes; more fuel does not change the result;
and a pass of the loop that rewrote has lowered the number of colons. -/
theorem C7_parse_terminates (h : Host) (content : List Char) (safe : Bool) (fuel : Nat)
    (hfuel : countChar ':' content + 1 ≤ fuel) :
    (∃ r, SVDocument.parse h fuel content safe = some r ∧
      ∀ fuel2, fuel ≤ fuel2 → SVDocument.parse h fuel2 content safe = some r) ∧
    (∃ out n, expand fuel content = some (out, n) ∧ n ≤ countChar ':' content + 1) ∧
    (∀ s, (replaceGo matchColonAttr 0 s).2 = true →
      countChar ':' (replaceGo matchColonAttr 0 s).1 < countChar ':' s) := by
  have hfirst := firstRewrites_colons content
  obtain ⟨out, n, hl, hn⟩ := colonLoop_terminates fuel (firstRewrites content) (by omega)
  have hex : expand fuel content = some (out, n) := hl
  refine ⟨?_, ⟨out, n, hex, by omega⟩, colonPass_decreases⟩
  have hret : ∃ r, SVDocument.parse h fuel content safe = some r := by
    unfold SVDocument.parse
    split
    · exact ⟨_, rfl⟩
    · rw [hex]; exact ⟨_, rfl⟩
  obtain ⟨r, hr⟩ := hret
  exact ⟨r, hr, fun fuel2 hle => parse_mono h content safe fuel fuel2 r hr hle⟩

/-- C7 at `<a b:c d:e>`, which has two colons: three passes are enough. -/
theorem C7_parse_terminates_witness :
    (∃ r, SVDocument.parse plainHost 3 "<a b:c d:e>".toList false = some r ∧
      ∀ fuel2, 3 ≤ fuel2 → SVDocument.parse plainHost fuel2 "<a b:c d:e>".toList false = some r) ∧
    (∃ out n, expand 3 "<a b:c d:e>".toList = some (out, n) ∧
      n ≤ countChar ':' "<a b:c d:e>".toList + 1) ∧
    (∀ s, (replaceGo matchColonAttr 0 s).2 = true →
      countChar ':' (replaceGo matchColonAttr 0 s).1 < countChar ':' s) :=
  C7_parse_terminates plainHost "<a b:c d:e>".toList false 3 (by decide)

/-! ## Errors returned as values and errors thrown (C8, C9, C10) -/

/-- When `c` is an element whose markup `x = c.outerHTML` is such that `safe(x)`
returns a string other than `x`, `p.appendChild(c)` returns the safety-mismatch
`SVDError` as a value and the trees, hence the children of `p`'s node, are as
before the call. -/
theorem appendChild_mismatch_returned (h : Host) (d : Dom) (p : VElement) (c : Nat)
    (y : List Char) (hel : d.instanceOfElement c = true)
    (hsafe : SVDocument.safe h (d.outerHTML h c) = .ok y) (hne : d.outerHTML h c ≠ y) :
    (p.appendChild h d (.raw c)).result =
      .ok (some ⟨"Element safety mismatch : Can't append an unsafe element to a safe element"⟩) ∧
    (p.appendChild h d (.raw c)).dom = d ∧
    (p.appendChild h d (.raw c)).dom.childNodes p.element = d.childNodes p.element := by
  have : p.appendChild h d (.raw c) =
      ⟨d, .ok (some
        ⟨"Element safety mismatch : Can't append an unsafe element to a safe element"⟩)⟩ := by
    simp [VElement.appendChild, VElement.appendRaw, hel, hsafe, hne]
  rw [this]
  exact ⟨rfl, rfl, rfl⟩

/-- The detached `script` element 7 of `pageDom`, appended through the proxy of
the `div` 4: its markup is `<script>evil()</script>` and `safe` of it is the
empty string. -/
theorem appendChild_mismatch_example :
    pageDom.outerHTML plainHost 7 = "<script>evil()</script>".toList ∧
    (VElement.appendChild plainHost pageDom ⟨4, 4⟩ (.raw 7)).result =
      .ok (some ⟨"Element safety mismatch : Can't append an unsafe element to a safe element"⟩) ∧
    (VElement.appendChild plainHost pageDom ⟨4, 4⟩ (.raw 7)).dom = pageDom ∧
    (VElement.appendChild plainHost pageDom ⟨4, 4⟩ (.raw 7)).dom.childNodes 4 =
      pageDom.childNodes 4 :=
  ⟨by decide,
    appendChild_mismatch_returned plainHost pageDom ⟨4, 4⟩ 7 [] (by decide) (by decide)
      (by decide)⟩

/-- C8 (code defect, the one of C3): when `c` is an element whose markup
`x = c.outerHTML` keeps an element with an event attribute once the elements of
`UnsafeTags` are removed, and the global environment does not bind `element`,
the call `SVDocument.safe(x)` inside `p.appendChild(c)` throws: `appendChild`
throws a `ReferenceError` and returns no `SVDError`. The trees, hence the
children of `p`'s node, are as before the call. -/
theorem C8_appendChild_throws_on_event_attribute (h : Host) (d : Dom) (p : VElement) (c : Nat)
    (hel : d.instanceOfElement c = true) (hglobal : h.globals.contains "element" = false)
    (hattr : (selectNodes isEventElement
      (pruneNodes isUnsafeElement (h.parseFragment (d.outerHTML h c)))).isEmpty = false) :
    (p.appendChild h d (.raw c)).result = .error (.referenceError "element") ∧
    (p.appendChild h d (.raw c)).dom = d ∧
    (p.appendChild h d (.raw c)).dom.childNodes p.element = d.childNodes p.element := by
  have hsafe := safe_event_throws h (d.outerHTML h c) hglobal hattr
  have : p.appendChild h d (.raw c) = ⟨d, .error (.referenceError "element")⟩ := by
    simp [VElement.appendChild, VElement.appendRaw, hel, hsafe]
  rw [this]
  exact ⟨rfl, rfl, rfl⟩

/-- C8 at the detached `div` 5 of `eventDom`, appended through the proxy of the
`div` 4. Its markup `x` is `<div onclick="bad()"></div>`; were the loop
variables of `safe` bound, `safe(x)` would be `<div></div>`, which is not `x`. -/
theorem C8_appendChild_throws_on_event_attribute_witness :
    eventDom.outerHTML plainHost 5 = "<div onclick=\"bad()\"></div>".toList ∧
    SVDocument.safe { plainHost with globals := ["element", "event"] }
      "<div onclick=\"bad()\"></div>".toList = .ok "<div></div>".toList ∧
    (VElement.appendChild plainHost eventDom ⟨4, 4⟩ (.raw 5)).result =
      .error (.referenceError "element") ∧
    (VElement.appendChild plainHost eventDom ⟨4, 4⟩ (.raw 5)).dom = eventDom ∧
    (VElement.appendChild plainHost eventDom ⟨4, 4⟩ (.raw 5)).dom.childNodes 4 =
      eventDom.childNodes 4 :=
  ⟨by decide, by decide,
    C8_appendChild_throws_on_event_attribute plainHost eventDom ⟨4, 4⟩ 5 (by decide) (by decide)
      (by decide)⟩

theorem substr_on (e : String) : String.mk (("on" ++ e).toList.drop 2) = e := by
  have : ("on" ++ e).toList = 'o' :: 'n' :: e.toList := by
    simp [String.toList, String.data_append]
  rw [this]
  rfl

/-- C9: for an event name `e` of `DOMEvents`, `setAttribute('on' + e, v)`
returns the forbidden-attribute `SVDError` as a value and leaves the trees as
they were, so an attribute `'on' + e` that was absent is absent afterwards. -/
theorem C9_setAttribute_rejects_event (d : Dom) (p : VElement) (e v : String)
    (he : e ∈ DOMEvents) :
    (p.setAttribute d ("on" ++ e) v).result =
      .ok (some ⟨"Can't set attribute \"$\x7battr\x7d\" because document is in safe mode"⟩) ∧
    (p.setAttribute d ("on" ++ e) v).dom = d ∧
    (d.hasAttribute p.element ("on" ++ e) = false →
      (p.setAttribute d ("on" ++ e) v).dom.hasAttribute p.element ("on" ++ e) = false) := by
  have hin : DOMEvents.contains (String.mk (("on" ++ e).toList.drop 2)) = true := by
    rw [substr_on]
    simpa using he
  have : p.setAttribute d ("on" ++ e) v =
      ⟨d, .ok (some
        ⟨"Can't set attribute \"$\x7battr\x7d\" because document is in safe mode"⟩)⟩ := by
    simp only [VElement.setAttribute, hin, if_true]
  rw [this]
  exact ⟨rfl, rfl, fun hx => hx⟩

/-- C9 at `onclick` on the proxy of the `div` 4 of `pageDom`. -/
theorem C9_setAttribute_rejects_event_witness :
    (VElement.setAttribute pageDom ⟨4, 4⟩ ("on" ++ "click") "bad()").result =
      .ok (some ⟨"Can't set attribute \"$\x7battr\x7d\" because document is in safe mode"⟩) ∧
    (VElement.setAttribute pageDom ⟨4, 4⟩ ("on" ++ "click") "bad()").dom = pageDom ∧
    (pageDom.hasAttribute 4 ("on" ++ "click") = false →
      (VElement.setAttribute pageDom ⟨4, 4⟩ ("on" ++ "click") "bad()").dom.hasAttribute 4
        ("on" ++ "click") = false) :=
  C9_setAttribute_rejects_event pageDom ⟨4, 4⟩ "click" "bad()" (by decide)

/-- C10 (code defect): on a document that is already attached, `appendTo`
evaluates `new VError(...)`; the global environment not binding `VError`, the
call throws a `ReferenceError` instead of returning an error value. The trees
and the document are as before the call. -/
theorem C10_second_appendTo_throws (h : Host) (d : Dom) (doc : SVDocument) (element : JSArg)
    (hattached : doc.isContained = true) (hglobal : h.globals.contains "VError" = false) :
    (SVDocument.appendTo h d doc element).result = .error (.referenceError "VError") ∧
    (SVDocument.appendTo h d doc element).dom = d ∧
    (SVDocument.appendTo h d doc element).doc = doc := by
  have hres : resolves h ["element", "content", "dontMark", "top", "dom", "isContained"]
      "VError" = false := by
    have h1 : ["element", "content", "dontMark", "top", "dom", "isContained"].contains
        "VError" = false := by decide
    have h2 : scriptGlobals.contains "VError" = false := by decide
    simp only [resolves, h1, h2, hglobal, Bool.or_self]
  have : SVDocument.appendTo h d doc element = ⟨d, doc, .error (.referenceError "VError")⟩ := by
    simp [SVDocument.appendTo, hattached, hres]
  rw [this]
  exact ⟨rfl, rfl, rfl⟩

/-- C10 on `attachedPage`, the state a first `doc.appendTo(host)` leaves: the
first call returned `undefined` and set the flag; the second call, on the
`div` 4, throws. -/
theorem C10_second_appendTo_throws_witness :
    attachedPage.result = .ok .undefined ∧
    attachedPage.dom.contains 6 attachedPage.doc.top = true ∧
    (SVDocument.appendTo plainHost attachedPage.dom attachedPage.doc (.raw 4)).result =
      .error (.referenceError "VError") ∧
    (SVDocument.appendTo plainHost attachedPage.dom attachedPage.doc (.raw 4)).dom =
      attachedPage.dom ∧
    (SVDocument.appendTo plainHost attachedPage.dom attachedPage.doc (.raw 4)).doc =
      attachedPage.doc :=
  ⟨by decide, by decide,
    C10_second_appendTo_throws plainHost attachedPage.dom attachedPage.doc (.raw 4) (by decide)
      (by decide)⟩

/-! ## Comparisons between proxies (C11) -/

theorem new_instanceOf (d : Dom) (p : VElement)
    (hp : VElement.new d p.element p.main = .ok p) : d.instanceOfElement p.element = true := by
  unfold VElement.new at hp
  split at hp
  · exact absurd hp (by simp)
  · rename_i hc
    simp only [Bool.or_eq_true, Bool.not_eq_true', not_or, Bool.not_eq_false] at hc
    exact hc.1

/-- C11: for proxies `p` and `q`, with fuel for three calls or more, both
`p.contains(q)` and `q.isContained(p)` return, and both return whether the node
of `p` contains the node of `q`. -/
theorem C11_contains_isContained_agree (d : Dom) (p q : VElement) (fuel : Nat)
    (hp : VElement.new d p.element p.main = .ok p) (hfuel : 3 ≤ fuel) :
    VElement.contains fuel d p (.proxy q) =
      some (.ok (some (d.contains p.element q.element))) ∧
    VElement.isContained fuel d q (.proxy p) =
      some (.ok (some (d.contains p.element q.element))) := by
  have hel := new_instanceOf d p hp
  obtain ⟨k, rfl⟩ : ∃ k, fuel = k + 3 := ⟨fuel - 3, by omega⟩
  simp [VElement.contains, VElement.isContained, hel]

/-- C11 on `pageDom`, with `p` the proxy of `body` 3 and `q` the proxy of the
`p` element 5, which `body` contains. -/
theorem C11_contains_isContained_agree_witness :
    pageDom.contains 3 5 = true ∧
    VElement.contains 3 pageDom ⟨3, 3⟩ (.proxy ⟨5, 3⟩) = some (.ok (some (pageDom.contains 3 5))) ∧
    VElement.isContained 3 pageDom ⟨5, 3⟩ (.proxy ⟨3, 3⟩) =
      some (.ok (some (pageDom.contains 3 5))) :=
  ⟨by decide, C11_contains_isContained_agree pageDom ⟨3, 3⟩ ⟨5, 3⟩ 3 (by decide) (by decide)⟩

/-! ## Event listeners (C12) -/

/-- In the engine, removing a listener with the callback it was added with
undoes the addition. -/
theorem Events.remove_add (ev : Events) (l : Listener) (hl : l ∉ ev.listeners) :
    ((ev.add l).remove l).listeners = ev.listeners := by
  have hc : ev.listeners.contains l = false := by simpa using hl
  have hadd : ev.add l = { ev with listeners := ev.listeners ++ [l] } := by
    unfold Events.add
    rw [hc]
    rfl
  rw [hadd]
  show (ev.listeners ++ [l]).erase l = ev.listeners
  rw [List.erase_append_right _ hl]
  simp

theorem mem_invoked (ev : Events) (l : Listener) (hl : l ∈ ev.listeners) :
    l.callback.runs ∈ ev.invoked l.target l.type := by
  unfold Events.invoked
  exact List.mem_map.mpr ⟨l, List.mem_filter.mpr ⟨hl, by simp⟩, rfl⟩

theorem mem_add (ev : Events) (l : Listener) : l ∈ (ev.add l).listeners := by
  unfold Events.add
  split
  · rename_i hc
    simpa using hc
  · simp

/-- C12 (code defect): `addEventListener` registers a new arrow function that
calls `h`, and `removeEventListener` asks the engine to remove `h` itself, which
was never registered. After `p.addEventListener(n, h)` returned `true` and
`p.removeEventListener(n, h)` (with any third argument) returned, the listener
stays: an event `n` on the node of `p` still runs `h`. -/
theorem C12_handler_still_invoked (ev : Events) (p : VElement) (n : String) (h : Nat)
    (useCapture : JSVal) :
    (VElement.addEventListener ev p (.str n) (.fn h)).2 = true ∧
    ∃ ev2, VElement.removeEventListener (VElement.addEventListener ev p (.str n) (.fn h)).1 p n
        (.fn h) useCapture = .ok ev2 ∧
      h ∈ ev2.invoked p.element n := by
  refine ⟨rfl, _, rfl, ?_⟩
  have hin : (⟨p.element, n, .wrapper ev.nextSerial h, false⟩ : Listener) ∈
      (VElement.addEventListener ev p (.str n) (.fn h)).1.listeners := by
    simp only [VElement.addEventListener]
    exact mem_add _ _
  have hne : (⟨p.element, n, .wrapper ev.nextSerial h, false⟩ : Listener) ≠
      ⟨p.element, n, .user h, captureFlag useCapture⟩ := by
    intro e
    cases e
  exact mem_invoked _ ⟨p.element, n, .wrapper ev.nextSerial h, false⟩
    ((List.mem_erase_of_ne hne).mpr hin)

end SVDom
